import Mathlib

/-!
# syso: resource validation and identifier allocation

A shallow embedding of `syso.go` (package `syso`): the `FileResource.Validate`
method, the validation loop of `ParseConfig` and the first-fit allocator
`findPossibleID`, followed by the properties proved about them.

Modelling conventions.

* Go `int` is 64 bits wide.  The embedded functions only compare identifiers
  and increment a counter that is below `65536`, so no operation can overflow
  and `Int` is used directly.
* A Go `*FileResource` may be `nil`; it is an `Option FileResource`.
* A Go call returns normally, returns an error, or panics; see `Result`.
* Go `error` values are kept structured; `message` renders the text the Go
  code builds with `errors.New`, `fmt.Errorf` and `errors.Wrapf`.
-/

namespace Syso

/-! ## Data model -/

/-- Outcome of a Go call that may return a value, return an error or panic. -/
inductive Result (ε α : Type) where
  | ok (v : α)
  | error (e : ε)
  | panic
  deriving DecidableEq, Repr

/-- The Go struct `FileResource` (`syso.go`, lines 17-21). -/
structure FileResource where
  ID : Int
  Name : String
  Path : String
  deriving DecidableEq, Repr

/-- The four errors `FileResource.Validate` can return. -/
inductive ValidateError where
  | noPath
  | noIdentifier
  | idAndName
  | invalidId (id : Int)
  deriving DecidableEq, Repr

/-- Text of a `ValidateError`, as built by `errors.New` and `fmt.Errorf` with the
verb `%d` in `FileResource.Validate`. -/
def ValidateError.message : ValidateError → String
  | .noPath => "no file path given"
  | .noIdentifier => "neither id nor name given"
  | .idAndName => "id and name cannot be set together"
  | .invalidId id => "invalid id: " ++ toString id

deriving instance DecidableEq for Except

/-- The method `FileResource.Validate` (`syso.go`, lines 24-37) on a non-nil
receiver: the `if / else if` chain in source order. -/
def FileResource.Validate (r : FileResource) : Except ValidateError Unit :=
  if r.Path = "" then .error .noPath
  else if r.ID = 0 ∧ r.Name = "" then .error .noIdentifier
  else if r.ID ≠ 0 ∧ r.Name ≠ "" then .error .idAndName
  else if r.ID < 0 then .error (.invalidId r.ID)
  else .ok ()

/-- The errors of the validation phase of `ParseConfig` (`syso.go`, lines 52-68). -/
inductive ParseError where
  | invalidIcon (i : Nat) (cause : ValidateError)
  | sameId (i j : Nat)
  | sameName (i j : Nat)
  | invalidManifest (cause : ValidateError)
  deriving DecidableEq, Repr

/-- Text of a `ParseError`: `errors.Wrapf` renders as `<context>: <cause>`,
`fmt.Errorf` with `%w` inserts the text of the cause. -/
def ParseError.message : ParseError → String
  | .invalidIcon i cause => "failed to validate icon #" ++ toString i ++ ": " ++ cause.message
  | .sameId i j => "icon #" ++ toString i ++ "'s id and icon #" ++ toString j ++ "'s id are same"
  | .sameName i j =>
      "icon #" ++ toString i ++ "'s name and icon #" ++ toString j ++ "'s name are same"
  | .invalidManifest cause => "failed to validate manifest: " ++ cause.message

/-- The Go struct `Config` (`syso.go`, lines 40-44).  The element type of
`VersionInfos` is declared outside the embedded files and is a parameter. -/
structure Config (V : Type) where
  Icons : List (Option FileResource)
  Manifest : Option FileResource
  VersionInfos : List (Option V)
  deriving DecidableEq, Repr

/-! ## The validation loop of `ParseConfig` -/

/-- The condition of line 57: `icon.ID != 0 && icon2.ID != 0 && icon2.ID == icon.ID`. -/
def idClash (icon icon2 : FileResource) : Prop :=
  icon.ID ≠ 0 ∧ icon2.ID ≠ 0 ∧ icon2.ID = icon.ID

/-- The condition of line 59:
`icon.Name != "" && icon2.Name != "" && icon2.Name == icon.Name`. -/
def nameClash (icon icon2 : FileResource) : Prop :=
  icon.Name ≠ "" ∧ icon2.Name ≠ "" ∧ icon2.Name = icon.Name

instance (a b : FileResource) : Decidable (idClash a b) :=
  inferInstanceAs (Decidable (a.ID ≠ 0 ∧ b.ID ≠ 0 ∧ b.ID = a.ID))

instance (a b : FileResource) : Decidable (nameClash a b) :=
  inferInstanceAs (Decidable (a.Name ≠ "" ∧ b.Name ≠ "" ∧ b.Name = a.Name))

/-- The inner loop `for j, icon2 := range c.Icons[:i]` (lines 56-62), run on the
elements that remain from index `j` on.  Reading a field of a nil `icon2`
panics. -/
def innerLoop (i : Nat) (icon : FileResource) :
    Nat → List (Option FileResource) → Result ParseError Unit
  | _, [] => .ok ()
  | _, none :: _ => .panic
  | j, some icon2 :: rest =>
      if idClash icon icon2 then .error (.sameId i j)
      else if nameClash icon icon2 then .error (.sameName i j)
      else innerLoop i icon (j + 1) rest

/-- One iteration of the outer loop (lines 53-62) for the element `p` at index
`i` of `icons`: `icon.Validate()` dereferences the receiver, so a nil icon
panics; otherwise the inner loop runs over `c.Icons[:i]`. -/
def iconStep (icons : List (Option FileResource)) (i : Nat) (p : Option FileResource) :
    Result ParseError Unit :=
  match p with
  | none => .panic
  | some icon =>
      match icon.Validate with
      | .error e => .error (.invalidIcon i e)
      | .ok _ => innerLoop i icon 0 (icons.take i)

/-- The outer loop `for i, icon := range c.Icons` (lines 52-63), run on the
elements that remain from index `i` on. -/
def iconsLoop (icons : List (Option FileResource)) :
    Nat → List (Option FileResource) → Result ParseError Unit
  | _, [] => .ok ()
  | i, p :: rest =>
      match iconStep icons i p with
      | .ok _ => iconsLoop icons (i + 1) rest
      | .error e => .error e
      | .panic => .panic

/-- The function `ParseConfig` after its JSON decoding step (`syso.go`, lines
52-70), applied to the decoded `Config`: the icon loop, then the manifest
check; version infos are not looked at. -/
def ParseConfig {V : Type} (c : Config V) : Result ParseError (Config V) :=
  match iconsLoop c.Icons 0 c.Icons with
  | .error e => .error e
  | .panic => .panic
  | .ok _ =>
      match c.Manifest with
      | none => .ok c
      | some m =>
          match m.Validate with
          | .error e => .error (.invalidManifest e)
          | .ok _ => .ok c

/-- The icons at positions `i` and `j` are both present and collide: the
conditions of lines 57 and 59 with `icon` the icon at `i` and `icon2` the one
at `j`. -/
def clashAt (icons : List (Option FileResource)) (i j : Nat) : Prop :=
  ∃ a b, icons[i]? = some (some a) ∧ icons[j]? = some (some b) ∧
    (idClash a b ∨ nameClash a b)

/-! ## The identifier allocator -/

/-- The function `findPossibleID` (`syso.go`, lines 156-164).  The method
`ResourceIDExists` of the container is declared outside the embedded files and
is passed as the parameter `ResourceIDExists`; `frm` is the Go parameter
`from`. -/
def findPossibleID (ResourceIDExists : Int → Bool) (frm : Int) : Int :=
  if frm < 65536 then
    if !ResourceIDExists frm then frm
    else findPossibleID ResourceIDExists (frm + 1)
  else frm
termination_by (65536 - frm).toNat
decreasing_by omega

/-! ## Resource container, object file and external collaborators

The packages `rsrc`, `coff`, `ico` and `common` are outside the embedded files.
Their data and operations are modelled from the specification; where the
specification leaves the outcome of an operation open (whether a file can be
read, whether a registration is accepted), the outcome is read from `Env`. -/

/-- Modelled from the spec: the resource types `rsrc.IconResource`,
`rsrc.IconGroupResource` and `rsrc.ManifestResource` used by `syso.go`. -/
inductive ResourceType where
  | IconResource
  | IconGroupResource
  | ManifestResource
  deriving DecidableEq, Repr

/-- Modelled from the spec: the key of a resource, a numeric id or a name. -/
inductive Identifier where
  | id (n : Int)
  | name (s : String)
  deriving DecidableEq, Repr

/-- Modelled from the spec: an image record of the icon decoder (`ico.Image`).
`ID` is the field `EmbedIcon` assigns; `data` stands for the rest. -/
structure Image where
  ID : Int
  data : List Nat
  deriving DecidableEq, Repr

/-- Modelled from the spec: the result of `ico.DecodeAll`, the ordered image
records `Images` and the aggregate descriptor. -/
structure Group where
  Images : List Image
  descriptor : List Nat
  deriving DecidableEq, Repr

/-- Modelled from the spec: the payloads (`common.Blob`) handed to the
container: an image, an icon group, or the raw bytes of a file. -/
inductive Blob where
  | image (img : Image)
  | group (g : Group)
  | raw (bytes : List Nat)
  deriving DecidableEq, Repr

/-- Modelled from the spec: one entry of the resource container. -/
structure Resource where
  typ : ResourceType
  ident : Identifier
  blob : Blob
  deriving DecidableEq, Repr

/-- Modelled from the spec: the resource container `rsrc.Section`, the typed,
identifier-keyed entries in registration order. -/
structure Section where
  resources : List Resource
  deriving DecidableEq, Repr

/-- Modelled from the spec: `rsrc.New`, a new, empty resource container. -/
def New : Section := ⟨[]⟩

/-- Modelled from the spec: `ResourceIDExists`, whether some entry, of any
resource type, has the numeric id `id`. -/
def Section.ResourceIDExists (r : Section) (id : Int) : Bool :=
  r.resources.any (fun e => decide (e.ident = .id id))

/-- Modelled from the spec: a section of the object file, either a resource
container, whose name is ".rsrc", or a section of another kind. -/
inductive CoffSection where
  | rsrc (r : Section)
  | other (name : String) (data : List Nat)
  deriving DecidableEq, Repr

/-- Modelled from the spec: the name of a section. -/
def CoffSection.Name : CoffSection → String
  | .rsrc _ => ".rsrc"
  | .other name _ => name

/-- Modelled from the spec: the object file `coff.File`, its sections in the
order in which they were added. -/
structure File where
  sections : List CoffSection
  deriving DecidableEq, Repr

/-- Modelled from the spec: the errors of `File.Section`; `coff.ErrSectionNotFound`
is the one `syso.go` tests for. -/
inductive CoffError where
  | ErrSectionNotFound
  | other (msg : String)
  deriving DecidableEq, Repr

/-- Modelled from the spec: the outcomes the specification leaves to the
external collaborators: `os.Open`, `ico.DecodeAll`, `common.NewBlob`, and
whether `AddSection` and the `AddResource` calls report an error. -/
structure Env where
  Open : String → Except String (List Nat)
  DecodeAll : List Nat → Except String Group
  NewBlob : List Nat → Except String Blob
  addSectionError : File → CoffSection → Option String
  addResourceError : Section → ResourceType → Identifier → Option String

/-- Modelled from the spec: `File.Section`, the position of the first section
with the given name; a Go pointer to a section is its position in the file. -/
def File.Section (c : File) (name : String) : Except CoffError Nat :=
  match c.sections.findIdx? (fun s => s.Name == name) with
  | some k => .ok k
  | none => .error .ErrSectionNotFound

/-- Modelled from the spec: `File.AddSection` attaches the section as a new,
last section, or reports an error and leaves the file as it was. -/
def File.AddSection (env : Env) (c : File) (s : CoffSection) : File × Except String Unit :=
  match env.addSectionError c s with
  | some msg => (c, .error msg)
  | none => (⟨c.sections ++ [s]⟩, .ok ())

/-- Modelled from the spec: `AddResourceByID` registers the payload under a
numeric id, or reports an error and leaves the container as it was. -/
def Section.AddResourceByID (env : Env) (r : Section) (typ : ResourceType) (id : Int)
    (b : Blob) : Section × Except String Unit :=
  match env.addResourceError r typ (.id id) with
  | some msg => (r, .error msg)
  | none => (⟨r.resources ++ [⟨typ, .id id, b⟩]⟩, .ok ())

/-- Modelled from the spec: `AddResourceByName` registers the payload under a
name, or reports an error and leaves the container as it was. -/
def Section.AddResourceByName (env : Env) (r : Section) (typ : ResourceType)
    (name : String) (b : Blob) : Section × Except String Unit :=
  match env.addResourceError r typ (.name name) with
  | some msg => (r, .error msg)
  | none => (⟨r.resources ++ [⟨typ, .name name, b⟩]⟩, .ok ())

/-- The container a pointer `r` into the object file points to, if any. -/
def File.rsrcAt (c : File) (r : Nat) : Option Syso.Section :=
  match c.sections[r]? with
  | some (.rsrc s) => some s
  | _ => none

/-- The object file after the container behind the pointer `r` became `s`. -/
def File.setRsrc (c : File) (r : Nat) (s : Syso.Section) : File :=
  ⟨c.sections.set r (.rsrc s)⟩

/-! ## The embedding functions of `syso.go` -/

/-- The errors of `getOrCreateRSRCSection` (`syso.go`, lines 137-154). -/
inductive SectionError where
  | addFailed
  | getFailed (cause : CoffError)
  | notRsrc
  deriving DecidableEq, Repr

/-- Text of a `CoffError`; the text of `coff.ErrSectionNotFound` is declared
outside the embedded files. -/
def CoffError.message : CoffError → String
  | .ErrSectionNotFound => "section not found"
  | .other msg => msg

/-- Text of a `SectionError`. -/
def SectionError.message : SectionError → String
  | .addFailed => "failed to add new .rsrc section"
  | .getFailed cause => "failed to get .rsrc section: " ++ cause.message
  | .notRsrc => "the .rsrc section is not a valid rsrc section"

/-- The function `getOrCreateRSRCSection` (`syso.go`, lines 137-154): the
object file after the call, and the pointer to the container or the error.
The section created by `rsrc.New` is the last one of the file once added; the
type assertion `s.(*rsrc.Section)` succeeds on a resource container only. -/
def getOrCreateRSRCSection (env : Env) (c : File) : File × Except SectionError Nat :=
  match c.Section ".rsrc" with
  | .error .ErrSectionNotFound =>
      match c.AddSection env (.rsrc New) with
      | (c1, .error _) => (c1, .error .addFailed)
      | (c1, .ok _) => (c1, .ok c.sections.length)
  | .error e => (c, .error (.getFailed e))
  | .ok k =>
      match c.sections[k]? with
      | some (.rsrc _) => (c, .ok k)
      | _ => (c, .error .notRsrc)

/-- The errors of `EmbedIcon` and `EmbedManifest` (`syso.go`, lines 74-135);
the causes that come from outside the package are kept as their text. -/
inductive EmbedError where
  | invalidIcon (cause : ValidateError)
  | invalidManifest (cause : ValidateError)
  | rsrcSection (cause : SectionError)
  | openIcon (cause : String)
  | openManifest (cause : String)
  | decodeIcon (cause : String)
  | newBlob (cause : String)
  | addImage (i : Nat) (cause : String)
  | addGroup (cause : String)
  | addManifest (cause : String)
  deriving DecidableEq, Repr

/-- Text of an `EmbedError`. -/
def EmbedError.message : EmbedError → String
  | .invalidIcon cause => "invalid icon: " ++ cause.message
  | .invalidManifest cause => "invalid manifest: " ++ cause.message
  | .rsrcSection cause => "failed to get or create .rsrc section: " ++ cause.message
  | .openIcon cause => "failed to open icon file: " ++ cause
  | .openManifest cause => "failed to open manifest file: " ++ cause
  | .decodeIcon cause => "failed to decode icon file: " ++ cause
  | .newBlob cause => cause
  | .addImage i cause => "failed to add icon image #" ++ toString i ++ ": " ++ cause
  | .addGroup cause => "failed to add icon group resource: " ++ cause
  | .addManifest cause => "failed to add manifest resource: " ++ cause

/-- The loop `for i, img := range icons.Images` of `EmbedIcon` (lines 91-96),
run on the images that remain from index `i` on: the container after the loop,
the images with the ids assigned to them, and the outcome. -/
def addImages (env : Env) : Section → Nat → List Image →
    Section × List Image × Except EmbedError Unit
  | r, _, [] => (r, [], .ok ())
  | r, i, img :: rest =>
      let img1 : Image := ⟨findPossibleID r.ResourceIDExists 1, img.data⟩
      match r.AddResourceByID env .IconResource img1.ID (.image img1) with
      | (r1, .error cause) => (r1, img1 :: rest, .error (.addImage i cause))
      | (r1, .ok _) =>
          match addImages env r1 (i + 1) rest with
          | (r2, imgs, res) => (r2, img1 :: imgs, res)

/-- The last registration of `EmbedIcon` and `EmbedManifest` (lines 97-101 and
126-130): by id when the id of the spec is not zero, by name otherwise. -/
def addByIdentifier (env : Env) (r : Section) (typ : ResourceType) (spec : FileResource)
    (b : Blob) : Section × Except String Unit :=
  if spec.ID ≠ 0 then r.AddResourceByID env typ spec.ID b
  else r.AddResourceByName env typ spec.Name b

/-- The registrations of `EmbedIcon` (`syso.go`, lines 91-105) on the container
`r`: the image loop, then the icon group under the identifier of the spec.
The group holds the images with the ids assigned to them. -/
def registerIcon (env : Env) (r : Section) (icon : FileResource) (icons : Group) :
    Section × Result EmbedError Unit :=
  match addImages env r 0 icons.Images with
  | (r1, _, .error e) => (r1, .error e)
  | (r1, imgs, .ok _) =>
      match addByIdentifier env r1 .IconGroupResource icon
          (.group ⟨imgs, icons.descriptor⟩) with
      | (r2, .error e) => (r2, .error (.addGroup e))
      | (r2, .ok _) => (r2, .ok ())

/-- The function `EmbedIcon` (`syso.go`, lines 74-106): the object file after
the call and the outcome.  The container is changed in place through the
pointer `r`, so what was registered before a failure stays in the file. -/
def EmbedIcon (env : Env) (c : File) (icon : Option FileResource) :
    File × Result EmbedError Unit :=
  match icon with
  | none => (c, .panic)
  | some icon =>
    match icon.Validate with
    | .error e => (c, .error (.invalidIcon e))
    | .ok _ =>
      match getOrCreateRSRCSection env c with
      | (c1, .error e) => (c1, .error (.rsrcSection e))
      | (c1, .ok r) =>
        match env.Open icon.Path with
        | .error e => (c1, .error (.openIcon e))
        | .ok f =>
          match env.DecodeAll f with
          | .error e => (c1, .error (.decodeIcon e))
          | .ok icons =>
            match c1.rsrcAt r with
            | none => (c1, .panic)
            | some s =>
              match registerIcon env s icon icons with
              | (s1, res) => (c1.setRsrc r s1, res)

/-- The function `EmbedManifest` (`syso.go`, lines 109-135). -/
def EmbedManifest (env : Env) (c : File) (manifest : Option FileResource) :
    File × Result EmbedError Unit :=
  match manifest with
  | none => (c, .panic)
  | some manifest =>
    match manifest.Validate with
    | .error e => (c, .error (.invalidManifest e))
    | .ok _ =>
      match getOrCreateRSRCSection env c with
      | (c1, .error e) => (c1, .error (.rsrcSection e))
      | (c1, .ok r) =>
        match env.Open manifest.Path with
        | .error e => (c1, .error (.openManifest e))
        | .ok f =>
          match env.NewBlob f with
          | .error e => (c1, .error (.newBlob e))
          | .ok b =>
            match c1.rsrcAt r with
            | none => (c1, .panic)
            | some s =>
              match addByIdentifier env s .ManifestResource manifest b with
              | (s1, .error e) => (c1.setRsrc r s1, .error (.addManifest e))
              | (s1, .ok _) => (c1.setRsrc r s1, .ok ())

/-- The errors `main` reports while embedding (`main.go`, lines 52-68). -/
inductive RunError where
  | icon (i : Nat) (cause : EmbedError)
  | manifest (cause : EmbedError)
  | versionInfo (i : Nat) (cause : String)
  deriving DecidableEq, Repr

/-- The loop `for i, icon := range cfg.Icons` of `main` (`main.go`, lines
52-56), run on the icons that remain from index `i` on; the first failure ends
the run. -/
def embedIcons (env : Env) : File → Nat → List (Option FileResource) →
    File × Result RunError Unit
  | c, _, [] => (c, .ok ())
  | c, i, icon :: rest =>
      match EmbedIcon env c icon with
      | (c1, .ok _) => embedIcons env c1 (i + 1) rest
      | (c1, .error e) => (c1, .error (.icon i e))
      | (c1, .panic) => (c1, .panic)

/-- The manifest step of `main` (`main.go`, lines 58-62). -/
def embedManifest (env : Env) (c : File) (manifest : Option FileResource) :
    File × Result RunError Unit :=
  match manifest with
  | none => (c, .ok ())
  | some m =>
      match EmbedManifest env c (some m) with
      | (c1, .ok _) => (c1, .ok ())
      | (c1, .error e) => (c1, .error (.manifest e))
      | (c1, .panic) => (c1, .panic)

/-- The loop `for i, vi := range cfg.VersionInfos` of `main` (`main.go`, lines
64-68).  `EmbedVersionInfo` is declared outside the embedded files and is the
parameter `embedVI`. -/
def embedVersionInfos {V : Type} (embedVI : File → Option V → File × Result String Unit) :
    File → Nat → List (Option V) → File × Result RunError Unit
  | c, _, [] => (c, .ok ())
  | c, i, vi :: rest =>
      match embedVI c vi with
      | (c1, .ok _) => embedVersionInfos embedVI c1 (i + 1) rest
      | (c1, .error e) => (c1, .error (.versionInfo i e))
      | (c1, .panic) => (c1, .panic)

/-- The embedding part of `main` (`main.go`, lines 52-68): the icons, then the
manifest if there is one, then the version infos; the first failure ends the
run with the object file as it is at that moment. -/
def mainEmbed {V : Type} (env : Env)
    (embedVI : File → Option V → File × Result String Unit) (c : File) (cfg : Config V) :
    File × Result RunError Unit :=
  match embedIcons env c 0 cfg.Icons with
  | (c1, .error e) => (c1, .error e)
  | (c1, .panic) => (c1, .panic)
  | (c1, .ok _) =>
      match embedManifest env c1 cfg.Manifest with
      | (c2, .error e) => (c2, .error e)
      | (c2, .panic) => (c2, .panic)
      | (c2, .ok _) => embedVersionInfos embedVI c2 0 cfg.VersionInfos

/-! ## Notions used to state the properties of the embedding functions -/

/-- The entry under which `EmbedIcon` registers an image. -/
def imageEntry (img : Image) : Resource :=
  ⟨.IconResource, .id img.ID, .image img⟩

/-- The images with the consecutive ids `start`, `start + 1`, ... in order. -/
def assignIDs : Int → List Image → List Image
  | _, [] => []
  | start, img :: rest => ⟨start, img.data⟩ :: assignIDs (start + 1) rest

/-- The identifier of a resource spec: its id when not zero, its name
otherwise. -/
def specIdentifier (spec : FileResource) : Identifier :=
  if spec.ID ≠ 0 then .id spec.ID else .name spec.Name

/-- The entries of the container of an object file: those of the section found
under the name ".rsrc", none when there is no such container. -/
def File.resources (c : File) : List Resource :=
  match c.Section ".rsrc" with
  | .ok k =>
      match c.rsrcAt k with
      | some s => s.resources
      | none => []
  | .error _ => []

/-- Every container of `c` is still in `c2`, at the same place, with the
entries it had in `c` as the first of its entries. -/
def Preserved (c c2 : File) : Prop :=
  ∀ (k : Nat) (s : Section), c.sections[k]? = some (.rsrc s) →
    ∃ s2 : Section, c2.sections[k]? = some (.rsrc s2) ∧ s.resources <+: s2.resources

/-- Every image entry has a numeric id that no earlier entry of the container
has. -/
def FreshImages (l : List Resource) : Prop :=
  ∀ (k : Nat) (e : Resource), l[k]? = some e → e.typ = .IconResource →
    ∀ n : Int, e.ident = .id n →
      ∀ (j : Nat) (e2 : Resource), j < k → l[j]? = some e2 → e2.ident ≠ .id n

/-- The containers of `c` that hold at most 65535 entries have fresh images. -/
def FreshFile (c : File) : Prop :=
  ∀ (k : Nat) (s : Section), c.sections[k]? = some (.rsrc s) →
    s.resources.length ≤ 65535 → FreshImages s.resources

/-- The group the file of a spec decodes to, when it can be opened and
decoded. -/
def decoded (env : Env) (spec : FileResource) : Option Group :=
  match env.Open spec.Path with
  | .ok f =>
      match env.DecodeAll f with
      | .ok icons => some icons
      | .error _ => none
  | .error _ => none

/-- The number of images the files of the specs decode to, all together. -/
def totalImages (env : Env) : List FileResource → Nat
  | [] => 0
  | spec :: rest =>
      (match decoded env spec with
        | some icons => icons.Images.length
        | none => 0) + totalImages env rest

/-- The entries named icon specs are to leave in the container, the first
image id being `start`: for each spec in order its images under the next
consecutive ids, then its icon group under its name. -/
def namedIconEntries (env : Env) : Int → List FileResource → List Resource
  | _, [] => []
  | start, spec :: rest =>
      match decoded env spec with
      | some icons =>
          (assignIDs start icons.Images).map imageEntry ++
            [⟨.IconGroupResource, .name spec.Name,
              .group ⟨assignIDs start icons.Images, icons.descriptor⟩⟩] ++
            namedIconEntries env (start + icons.Images.length) rest
      | none => []

/-- A sample environment for the concrete cases: every path opens, every icon
file decodes to the images `imgs`, every section and every registration is
accepted. -/
def acceptAll (imgs : List Image) : Env :=
  ⟨fun _ => .ok [], fun _ => .ok ⟨imgs, []⟩, fun b => .ok (.raw b),
    fun _ _ => none, fun _ _ _ => none⟩

/-- A sample environment for the concrete cases: as `acceptAll`, but the
container rejects every icon group. -/
def rejectGroups (imgs : List Image) : Env :=
  ⟨fun _ => .ok [], fun _ => .ok ⟨imgs, []⟩, fun b => .ok (.raw b), fun _ _ => none,
    fun _ t _ => if t = .IconGroupResource then some "rejected" else none⟩

/-- Every image entry has an id that was free in the container made of the
entries before it, whenever that container had a free id between 1 and
65535. -/
def AssignedFree (l : List Resource) : Prop :=
  ∀ (k : Nat) (e : Resource), l[k]? = some e → e.typ = .IconResource →
    ∀ n : Int, e.ident = .id n →
      (∃ m : Int, 1 ≤ m ∧ m ≤ 65535 ∧ Section.ResourceIDExists ⟨l.take k⟩ m = false) →
      Section.ResourceIDExists ⟨l.take k⟩ n = false

/-- The images of every container of `c` were given ids that were free. -/
def AssignedFreeFile (c : File) : Prop :=
  ∀ (k : Nat) (s : Section), c.sections[k]? = some (.rsrc s) → AssignedFree s.resources

/-! ## Properties of `FileResource.Validate` -/

/-- C1: `Validate` returns no error exactly when the path is non-empty and
either the id is positive with an empty name or the id is zero with a non-empty
name; in particular every positive id, however large, is accepted. -/
theorem validate_ok_iff :
    (∀ r : FileResource, r.Validate = .ok () ↔
      r.Path ≠ "" ∧ ((0 < r.ID ∧ r.Name = "") ∨ (r.ID = 0 ∧ r.Name ≠ ""))) ∧
    (∀ (n : Int) (p : String), 0 < n → p ≠ "" →
      FileResource.Validate ⟨n, "", p⟩ = .ok ()) := by
  constructor
  · intro r
    unfold FileResource.Validate
    split_ifs with h1 h2 h3 h4
    · simp [h1]
    · simp [h2.1, h2.2]
    · simp [h3.2]
      omega
    · have hn : r.Name = "" := by
        by_contra hne
        exact h3 ⟨by omega, hne⟩
      simp [h1, hn]
      omega
    · simp only [true_iff]
      refine ⟨h1, ?_⟩
      by_cases hz : r.ID = 0
      · right
        exact ⟨hz, fun hn => h2 ⟨hz, hn⟩⟩
      · left
        refine ⟨by omega, ?_⟩
        by_contra hne
        exact h3 ⟨hz, hne⟩
  · intro n p hn hp
    have h0 : n ≠ 0 := by omega
    have h1 : ¬ n < 0 := by omega
    simp [FileResource.Validate, hp, h0, h1]

/-- C1, at concrete inputs: the id `2 ^ 62` with a path is accepted, and so is
a named resource with id zero. -/
theorem validate_ok_iff_witness :
    FileResource.Validate ⟨2 ^ 62, "", "app.ico"⟩ = .ok () ∧
    ((FileResource.Validate ⟨0, "MAIN", "app.ico"⟩ = .ok ()) ↔
      ("app.ico" ≠ "" ∧ (((0 : Int) < 0 ∧ "MAIN" = "") ∨ ((0 : Int) = 0 ∧ "MAIN" ≠ "")))) :=
  ⟨validate_ok_iff.2 (2 ^ 62) "app.ico" (by decide) (by decide),
   validate_ok_iff.1 ⟨0, "MAIN", "app.ico"⟩⟩

/-- C2: with an empty path `Validate` fails with the missing-path error,
whose text is "no file path given", whatever the id and the name are. -/
theorem validate_empty_path (id : Int) (name : String) :
    FileResource.Validate ⟨id, name, ""⟩ = .error .noPath ∧
    ValidateError.noPath.message = "no file path given" := by
  constructor
  · simp [FileResource.Validate]
  · rfl

/-- C3: with a non-empty path, id zero and an empty name give the
missing-identifier error, and a non-zero id with a non-empty name gives the
conflicting-identifier error. -/
theorem validate_identifier_errors (r : FileResource) (hp : r.Path ≠ "") :
    (r.ID = 0 ∧ r.Name = "" → r.Validate = .error .noIdentifier) ∧
    (r.ID ≠ 0 ∧ r.Name ≠ "" → r.Validate = .error .idAndName) ∧
    ValidateError.noIdentifier.message = "neither id nor name given" ∧
    ValidateError.idAndName.message = "id and name cannot be set together" := by
  refine ⟨?_, ?_, rfl, rfl⟩
  · rintro ⟨h0, hn⟩
    simp [FileResource.Validate, hp, h0, hn]
  · rintro ⟨h0, hn⟩
    simp [FileResource.Validate, hp, h0, hn]

/-- C3, at concrete inputs: an icon with no identifier and an icon with both. -/
theorem validate_identifier_errors_witness :
    FileResource.Validate ⟨0, "", "a.ico"⟩ = .error .noIdentifier ∧
    FileResource.Validate ⟨7, "X", "a.ico"⟩ = .error .idAndName :=
  ⟨(validate_identifier_errors ⟨0, "", "a.ico"⟩ (by decide)).1 ⟨rfl, rfl⟩,
   (validate_identifier_errors ⟨7, "X", "a.ico"⟩ (by decide)).2.1 ⟨by decide, by decide⟩⟩

/-- C4 as stated fails: the id `-1` with the name "X" and a path is rejected
with the conflicting-identifier error, and the id `-1` with an empty path is
rejected with the missing-path error; neither is the invalid-id error. -/
theorem validate_negative_id_counterexample :
    ¬ (∀ r : FileResource, r.ID < 0 → r.Validate = .error (.invalidId r.ID)) ∧
    FileResource.Validate ⟨-1, "X", "a.ico"⟩ = .error .idAndName ∧
    FileResource.Validate ⟨-1, "", ""⟩ = .error .noPath := by
  refine ⟨?_, by decide, by decide⟩
  intro h
  have h1 := h ⟨-1, "X", "a.ico"⟩ (by decide)
  revert h1
  decide

/-- C4, amended: with a non-empty path and an empty name, a negative id is
rejected with the invalid-id error, whose text is "invalid id: " followed by
the decimal rendering of the id. -/
theorem validate_negative_id (r : FileResource) (hp : r.Path ≠ "") (hn : r.Name = "")
    (hid : r.ID < 0) :
    r.Validate = .error (.invalidId r.ID) ∧
    (ValidateError.invalidId r.ID).message = "invalid id: " ++ toString r.ID := by
  have h0 : r.ID ≠ 0 := by omega
  refine ⟨?_, rfl⟩
  simp [FileResource.Validate, hp, hn, h0, hid]

/-- C4, amended, at a concrete input: the id `-5`. -/
theorem validate_negative_id_witness :
    FileResource.Validate ⟨-5, "", "a.ico"⟩ = .error (.invalidId (-5)) ∧
    (ValidateError.invalidId (-5)).message = "invalid id: -5" :=
  validate_negative_id ⟨-5, "", "a.ico"⟩ (by decide) rfl (by decide)

/-! ## The loops of `ParseConfig` -/

theorem idClash_comm (a b : FileResource) : idClash a b ↔ idClash b a := by
  unfold idClash
  constructor <;> rintro ⟨h1, h2, h3⟩ <;> exact ⟨h2, h1, h3.symm⟩

theorem nameClash_comm (a b : FileResource) : nameClash a b ↔ nameClash b a := by
  unfold nameClash
  constructor <;> rintro ⟨h1, h2, h3⟩ <;> exact ⟨h2, h1, h3.symm⟩

theorem clashAt_comm (icons : List (Option FileResource)) (i j : Nat) :
    clashAt icons i j ↔ clashAt icons j i := by
  unfold clashAt
  constructor <;> rintro ⟨a, b, ha, hb, hc⟩ <;>
    exact ⟨b, a, hb, ha, hc.imp (idClash_comm _ _).1 (nameClash_comm _ _).1⟩

theorem mem_take_iff (l : List (Option FileResource)) (x : Option FileResource) (i : Nat) :
    x ∈ l.take i ↔ ∃ k : Nat, k < i ∧ l[k]? = some x := by
  constructor
  · intro h
    obtain ⟨k, hk⟩ := List.mem_iff_getElem?.1 h
    have hlt : k < i := by
      by_contra hge
      rw [List.getElem?_take_eq_none (by omega)] at hk
      cases hk
    rw [List.getElem?_take_of_lt hlt] at hk
    exact ⟨k, hlt, hk⟩
  · rintro ⟨k, hlt, hk⟩
    exact List.mem_iff_getElem?.2 ⟨k, by rw [List.getElem?_take_of_lt hlt]; exact hk⟩

/-- The inner loop runs to its end exactly when every element it visits is
non-nil and collides with `icon` in neither way. -/
theorem innerLoop_ok_iff (i : Nat) (icon : FileResource) (l : List (Option FileResource))
    (j : Nat) :
    innerLoop i icon j l = .ok () ↔
      ∀ p ∈ l, ∃ r, p = some r ∧ ¬ idClash icon r ∧ ¬ nameClash icon r := by
  induction l generalizing j with
  | nil => simp [innerLoop]
  | cons p rest ih =>
    cases p with
    | none => simp [innerLoop]
    | some r =>
      simp only [innerLoop]
      split_ifs with h1 h2
      · simp [h1]
      · simp [h2]
      · simp [ih, h1, h2]

/-- The inner loop stops at the first element that collides with `icon`, with
the id form of the error when the ids collide. -/
theorem innerLoop_first_clash (i : Nat) (icon : FileResource)
    (l : List (Option FileResource)) (j k : Nat) (r : FileResource)
    (hk : l[k]? = some (some r)) (hc : idClash icon r ∨ nameClash icon r)
    (hbefore : ∀ k2 : Nat, k2 < k →
      ∃ r2, l[k2]? = some (some r2) ∧ ¬ idClash icon r2 ∧ ¬ nameClash icon r2) :
    innerLoop i icon j l =
      .error (if idClash icon r then .sameId i (j + k) else .sameName i (j + k)) := by
  induction l generalizing j k with
  | nil => simp at hk
  | cons p rest ih =>
    cases k with
    | zero =>
      simp only [List.getElem?_cons_zero, Option.some.injEq] at hk
      subst hk
      simp only [innerLoop, Nat.add_zero]
      split_ifs with h1 h2
      · rfl
      · rfl
      · exact absurd hc (by simp [h1, h2])
    | succ k =>
      obtain ⟨r0, h0, hn1, hn2⟩ := hbefore 0 (by omega)
      simp only [List.getElem?_cons_zero, Option.some.injEq] at h0
      subst h0
      simp only [innerLoop, if_neg hn1, if_neg hn2]
      rw [ih (j + 1) k (by simpa using hk)]
      · rw [show j + 1 + k = j + (k + 1) by omega]
      · intro k2 hk2
        simpa using hbefore (k2 + 1) (by omega)

/-- One iteration passes exactly when the icon is non-nil, passes `Validate`
and collides with none of the earlier, non-nil icons. -/
theorem iconStep_ok_iff (icons : List (Option FileResource)) (i : Nat)
    (p : Option FileResource) :
    iconStep icons i p = .ok () ↔
      ∃ r, p = some r ∧ r.Validate = .ok () ∧
        ∀ k : Nat, k < i → ∀ q, icons[k]? = some q →
          ∃ r2, q = some r2 ∧ ¬ idClash r r2 ∧ ¬ nameClash r r2 := by
  cases p with
  | none => simp [iconStep]
  | some r =>
    simp only [iconStep, Option.some.injEq, exists_eq_left']
    cases hv : r.Validate with
    | error e => simp
    | ok u =>
      simp only [innerLoop_ok_iff, mem_take_iff, true_and]
      constructor
      · intro h k hk q hq
        exact h q ⟨k, hk, hq⟩
      · rintro h q ⟨k, hk, hq⟩
        exact h k hk q hq

/-- The outer loop runs to its end exactly when every iteration passes. -/
theorem iconsLoop_ok_iff (icons rest : List (Option FileResource)) (i : Nat) :
    iconsLoop icons i rest = .ok () ↔
      ∀ (k : Nat) (p : Option FileResource), rest[k]? = some p →
        iconStep icons (i + k) p = .ok () := by
  induction rest generalizing i with
  | nil => simp [iconsLoop]
  | cons p rest ih =>
    simp only [iconsLoop]
    constructor
    · intro h k q hq
      cases hs : iconStep icons i p with
      | error e => simp [hs] at h
      | panic => simp [hs] at h
      | ok u =>
        simp only [hs] at h
        cases k with
        | zero =>
          simp only [List.getElem?_cons_zero, Option.some.injEq] at hq
          subst hq
          simpa using hs
        | succ k =>
          have := (ih (i + 1)).1 h k q (by simpa using hq)
          rwa [show i + 1 + k = i + (k + 1) by omega] at this
    · intro h
      have h0 := h 0 p (by simp)
      simp only [Nat.add_zero] at h0
      simp only [h0]
      refine (ih (i + 1)).2 ?_
      intro k q hq
      have := h (k + 1) q (by simpa using hq)
      rwa [show i + (k + 1) = i + 1 + k by omega] at this

/-- The outer loop returns the outcome of its first iteration that does not
pass. -/
theorem iconsLoop_first_fail (icons rest : List (Option FileResource)) (i k : Nat)
    (p : Option FileResource) (hk : rest[k]? = some p)
    (hfail : iconStep icons (i + k) p ≠ .ok ())
    (hbefore : ∀ (k2 : Nat) (q : Option FileResource), k2 < k → rest[k2]? = some q →
      iconStep icons (i + k2) q = .ok ()) :
    iconsLoop icons i rest = iconStep icons (i + k) p := by
  induction rest generalizing i k with
  | nil => simp at hk
  | cons p0 rest ih =>
    cases k with
    | zero =>
      simp only [List.getElem?_cons_zero, Option.some.injEq] at hk
      subst hk
      simp only [Nat.add_zero] at hfail ⊢
      simp only [iconsLoop]
      cases hs : iconStep icons i p0 with
      | error e => rfl
      | panic => rfl
      | ok u => exact absurd hs hfail
    | succ k =>
      have h0 := hbefore 0 p0 (by omega) (by simp)
      simp only [Nat.add_zero] at h0
      simp only [iconsLoop, h0]
      rw [show i + (k + 1) = i + 1 + k by omega] at hfail ⊢
      refine ih (i + 1) k (by simpa using hk) hfail ?_
      intro k2 q hk2 hq
      have := hbefore (k2 + 1) q (by omega) (by simpa using hq)
      rwa [show i + (k2 + 1) = i + 1 + k2 by omega] at this

/-- An iteration passes when its icon is valid, the icons before it are
non-nil and none of them collides with it. -/
theorem iconStep_ok_of_valid (icons : List (Option FileResource)) (i : Nat)
    (r : FileResource) (hi : icons[i]? = some (some r)) (hv : r.Validate = .ok ())
    (hprev : ∀ k : Nat, k < i → ∃ r2, icons[k]? = some (some r2))
    (hno : ∀ j : Nat, j < i → ¬ clashAt icons i j) :
    iconStep icons i (some r) = .ok () := by
  refine (iconStep_ok_iff icons i (some r)).2 ⟨r, rfl, hv, ?_⟩
  intro k hk q hq
  obtain ⟨r2, hr2⟩ := hprev k hk
  rw [hr2] at hq
  simp only [Option.some.injEq] at hq
  subst hq
  refine ⟨r2, rfl, ?_, ?_⟩
  · intro hc
    exact hno k hk ⟨r, r2, hi, hr2, Or.inl hc⟩
  · intro hc
    exact hno k hk ⟨r, r2, hi, hr2, Or.inr hc⟩

/-- The icon loop reports the first colliding pair: `i` is the first index
whose icon collides with an earlier one, `j` the first index it collides
with, all icons up to `i` being valid. -/
theorem iconsLoop_first_clash (icons : List (Option FileResource)) (i j : Nat)
    (ri rj : FileResource) (hji : j < i)
    (hi : icons[i]? = some (some ri)) (hj : icons[j]? = some (some rj))
    (hc : idClash ri rj ∨ nameClash ri rj)
    (hvalid : ∀ k : Nat, k ≤ i → ∃ r, icons[k]? = some (some r) ∧ r.Validate = .ok ())
    (hmin_i : ∀ i2 j2 : Nat, j2 < i2 → i2 < i → ¬ clashAt icons i2 j2)
    (hmin_j : ∀ j2 : Nat, j2 < j → ¬ clashAt icons i j2) :
    iconsLoop icons 0 icons =
      .error (if idClash ri rj then .sameId i j else .sameName i j) := by
  have hvi : ri.Validate = .ok () := by
    obtain ⟨r, hr, hv⟩ := hvalid i (le_refl i)
    rw [hi] at hr
    simp only [Option.some.injEq] at hr
    subst hr
    exact hv
  have hstep : iconStep icons i (some ri) =
      .error (if idClash ri rj then .sameId i j else .sameName i j) := by
    simp only [iconStep, hvi]
    rw [innerLoop_first_clash i ri (icons.take i) 0 j rj
      (by rw [List.getElem?_take_of_lt hji]; exact hj) hc]
    · simp
    · intro k2 hk2
      obtain ⟨r2, hr2, _⟩ := hvalid k2 (by omega)
      refine ⟨r2, by rw [List.getElem?_take_of_lt (by omega)]; exact hr2, ?_, ?_⟩
      · intro h
        exact hmin_j k2 hk2 ⟨ri, r2, hi, hr2, Or.inl h⟩
      · intro h
        exact hmin_j k2 hk2 ⟨ri, r2, hi, hr2, Or.inr h⟩
  have hloop := iconsLoop_first_fail icons icons 0 i (some ri) hi
    (by rw [Nat.zero_add, hstep]; simp) (by
      intro k2 q hk2 hq
      obtain ⟨r2, hr2, hv2⟩ := hvalid k2 (by omega)
      rw [hr2] at hq
      simp only [Option.some.injEq] at hq
      subst hq
      rw [Nat.zero_add]
      refine iconStep_ok_of_valid icons k2 r2 hr2 hv2 ?_ ?_
      · intro k hk
        obtain ⟨r3, hr3, _⟩ := hvalid k (by omega)
        exact ⟨r3, hr3⟩
      · intro j2 hj2
        exact hmin_i k2 j2 hj2 hk2)
  rw [hloop, Nat.zero_add, hstep]

/-- Among the colliding pairs below `n` there is a first one in the order in
which the loops visit them. -/
theorem exists_first_clash (icons : List (Option FileResource)) (n : Nat)
    (h : ∃ a b : Nat, b < a ∧ a < n ∧ clashAt icons a b) :
    ∃ i j : Nat, j < i ∧ i < n ∧ clashAt icons i j ∧
      (∀ i2 j2 : Nat, j2 < i2 → i2 < i → ¬ clashAt icons i2 j2) ∧
      (∀ j2 : Nat, j2 < j → ¬ clashAt icons i j2) := by
  classical
  have hP : ∃ a : Nat, ∃ b : Nat, b < a ∧ a < n ∧ clashAt icons a b := h
  have hQ : ∃ b : Nat, b < Nat.find hP ∧ Nat.find hP < n ∧ clashAt icons (Nat.find hP) b :=
    Nat.find_spec hP
  refine ⟨Nat.find hP, Nat.find hQ, (Nat.find_spec hQ).1, (Nat.find_spec hQ).2.1,
    (Nat.find_spec hQ).2.2, ?_, ?_⟩
  · intro i2 j2 hj2 hi2 hc
    exact Nat.find_min hP hi2 ⟨j2, hj2, lt_trans hi2 (Nat.find_spec hQ).2.1, hc⟩
  · intro j2 hj2 hc
    exact Nat.find_min hQ hj2 ⟨lt_trans hj2 (Nat.find_spec hQ).1, (Nat.find_spec hQ).2.1, hc⟩

/-- The icon loop runs to its end exactly when every icon is non-nil and valid
and no two icons collide. -/
theorem iconsLoop_all_ok_iff (icons : List (Option FileResource)) :
    iconsLoop icons 0 icons = .ok () ↔
      (∀ p ∈ icons, ∃ r, p = some r ∧ r.Validate = .ok ()) ∧
      (∀ i j : Nat, j < i → ¬ clashAt icons i j) := by
  rw [iconsLoop_ok_iff]
  constructor
  · intro h
    have hall : ∀ p ∈ icons, ∃ r, p = some r ∧ r.Validate = .ok () := by
      intro p hp
      obtain ⟨k, hk⟩ := List.mem_iff_getElem?.1 hp
      obtain ⟨r, hr, hv, _⟩ := (iconStep_ok_iff icons (0 + k) p).1 (h k p hk)
      exact ⟨r, hr, hv⟩
    refine ⟨hall, ?_⟩
    rintro i j hji ⟨a, b, ha, hb, hc⟩
    obtain ⟨r, hr, _, hno⟩ := (iconStep_ok_iff icons (0 + i) (some a)).1 (h i (some a) ha)
    simp only [Option.some.injEq] at hr
    subst hr
    obtain ⟨r2, hr2, hn1, hn2⟩ := hno j (by omega) (some b) hb
    simp only [Option.some.injEq] at hr2
    subst hr2
    exact hc.elim hn1 hn2
  · rintro ⟨hall, hno⟩ k p hk
    obtain ⟨r, hr, hv⟩ := hall p (List.mem_iff_getElem?.2 ⟨k, hk⟩)
    subst hr
    rw [Nat.zero_add]
    refine iconStep_ok_of_valid icons k r hk hv ?_ (fun j hj => hno k j hj)
    intro k2 hk2
    have hlen : k < icons.length := by
      by_contra hge
      rw [List.getElem?_eq_none (by omega)] at hk
      cases hk
    have hk2len : k2 < icons.length := by omega
    obtain ⟨r2, hr2, _⟩ := hall icons[k2] (List.getElem_mem _)
    exact ⟨r2, by rw [List.getElem?_eq_getElem hk2len, hr2]⟩

/-! ## Properties of `ParseConfig` -/

/-- A successful `ParseConfig` returns the decoded configuration itself. -/
theorem parseConfig_ok_eq {V : Type} (c c2 : Config V) (h : ParseConfig c = .ok c2) :
    c2 = c := by
  unfold ParseConfig at h
  split at h
  · cases h
  · cases h
  · split at h
    · cases h
      rfl
    · split at h
      · cases h
      · cases h
        rfl

/-- Unfolding of `ParseConfig` once the icon loop has run to its end. -/
theorem parseConfig_loop_ok {V : Type} (c : Config V) :
    ParseConfig c = .ok c ↔
      iconsLoop c.Icons 0 c.Icons = .ok () ∧
      (∀ m, c.Manifest = some m → m.Validate = .ok ()) := by
  unfold ParseConfig
  cases hl : iconsLoop c.Icons 0 c.Icons with
  | error e => simp
  | panic => simp
  | ok u =>
    cases hm : c.Manifest with
    | none => simp
    | some m =>
      cases hv : m.Validate with
      | error e => simp [hv]
      | ok u2 => simp [hv]

/-- C5: the validation of `ParseConfig` succeeds exactly when every icon
passes `Validate`, no two icons at distinct indices share a non-zero id, no two
share a non-empty name, and the manifest, if present, passes `Validate`.  The
manifest is not compared with the icons: with a manifest the validation
succeeds exactly when it succeeds without it and the manifest is valid. -/
theorem parseConfig_ok_iff {V : Type} (c : Config V) :
    (ParseConfig c = .ok c ↔
      (∀ p ∈ c.Icons, ∃ r, p = some r ∧ r.Validate = .ok ()) ∧
      (∀ (i j : Nat) (a b : FileResource), i ≠ j →
        c.Icons[i]? = some (some a) → c.Icons[j]? = some (some b) →
        ¬ (a.ID ≠ 0 ∧ a.ID = b.ID)) ∧
      (∀ (i j : Nat) (a b : FileResource), i ≠ j →
        c.Icons[i]? = some (some a) → c.Icons[j]? = some (some b) →
        ¬ (a.Name ≠ "" ∧ a.Name = b.Name)) ∧
      (∀ m, c.Manifest = some m → m.Validate = .ok ())) ∧
    (∀ c2, ParseConfig c = .ok c2 → c2 = c) ∧
    (∀ m : FileResource,
      ParseConfig (⟨c.Icons, some m, c.VersionInfos⟩ : Config V) =
          .ok ⟨c.Icons, some m, c.VersionInfos⟩ ↔
        ParseConfig (⟨c.Icons, none, c.VersionInfos⟩ : Config V) =
          .ok ⟨c.Icons, none, c.VersionInfos⟩ ∧ m.Validate = .ok ()) := by
  refine ⟨?_, fun c2 h => parseConfig_ok_eq c c2 h, ?_⟩
  · rw [parseConfig_loop_ok, iconsLoop_all_ok_iff]
    constructor
    · rintro ⟨⟨hall, hno⟩, hm⟩
      refine ⟨hall, ?_, ?_, hm⟩
      · rintro i j a b hij ha hb ⟨h0, hab⟩
        rcases Nat.lt_or_gt_of_ne hij with hlt | hgt
        · exact hno j i hlt ⟨b, a, hb, ha, Or.inl ⟨by omega, h0, hab⟩⟩
        · exact hno i j hgt ⟨a, b, ha, hb, Or.inl ⟨h0, by omega, hab.symm⟩⟩
      · rintro i j a b hij ha hb ⟨h0, hab⟩
        rcases Nat.lt_or_gt_of_ne hij with hlt | hgt
        · exact hno j i hlt ⟨b, a, hb, ha, Or.inr ⟨by rw [← hab]; exact h0, h0, hab⟩⟩
        · exact hno i j hgt ⟨a, b, ha, hb, Or.inr ⟨h0, by rw [← hab]; exact h0, hab.symm⟩⟩
    · rintro ⟨hall, hid, hname, hm⟩
      refine ⟨⟨hall, ?_⟩, hm⟩
      rintro i j hji ⟨a, b, ha, hb, hc⟩
      rcases hc with ⟨h0, _, hab⟩ | ⟨h0, _, hab⟩
      · exact hid i j a b (by omega) ha hb ⟨h0, hab.symm⟩
      · exact hname i j a b (by omega) ha hb ⟨h0, hab.symm⟩
  · intro m
    rw [parseConfig_loop_ok, parseConfig_loop_ok]
    simp

/-- C5, at a concrete input: one icon with id 1 and a manifest that also has
id 1 are accepted together, and the same icon is accepted with no manifest. -/
theorem parseConfig_ok_iff_witness :
    ParseConfig (⟨[some ⟨1, "", "app.ico"⟩], some ⟨1, "", "app.manifest"⟩, []⟩ : Config Unit) =
      .ok ⟨[some ⟨1, "", "app.ico"⟩], some ⟨1, "", "app.manifest"⟩, []⟩ ∧
    ParseConfig (⟨[some ⟨1, "", "app.ico"⟩], none, []⟩ : Config Unit) =
      .ok ⟨[some ⟨1, "", "app.ico"⟩], none, []⟩ :=
  ⟨by decide,
   (((parseConfig_ok_iff
      (⟨[some ⟨1, "", "app.ico"⟩], some ⟨1, "", "app.manifest"⟩, []⟩ : Config Unit)).2.2
        ⟨1, "", "app.manifest"⟩).1 (by decide)).1⟩

/-- The result of `ParseConfig` when the icon loop fails. -/
theorem parseConfig_of_loop_error {V : Type} (c : Config V) (e : ParseError)
    (h : iconsLoop c.Icons 0 c.Icons = .error e) : ParseConfig c = .error e := by
  unfold ParseConfig
  rw [h]

/-- C6 as stated fails: icons 0 and 1 pass `Validate` and share the id 7, icon
2 is the only icon that fails `Validate` (empty path), yet the error reported
is the duplicate id of icons 1 and 0, not the `Validate` failure of icon 2. -/
theorem parseConfig_first_invalid_counterexample :
    FileResource.Validate ⟨7, "", "a.ico"⟩ = .ok () ∧
    FileResource.Validate ⟨7, "", "b.ico"⟩ = .ok () ∧
    FileResource.Validate ⟨0, "", ""⟩ = .error .noPath ∧
    ParseConfig (⟨[some ⟨7, "", "a.ico"⟩, some ⟨7, "", "b.ico"⟩, some ⟨0, "", ""⟩],
      none, []⟩ : Config Unit) = .error (.sameId 1 0) ∧
    ParseConfig (⟨[some ⟨7, "", "a.ico"⟩, some ⟨7, "", "b.ico"⟩, some ⟨0, "", ""⟩],
      none, []⟩ : Config Unit) ≠ .error (.invalidIcon 2 .noPath) := by
  decide

/-- C6, amended: let icon `k` be the first icon that fails `Validate`, the
icons before it being valid.  Then the validation fails.  If no two icons
before `k` collide, the error is the `Validate` failure of icon `k` with the
index `k`; if two of them collide, it is the duplicate-identifier error of two
colliding icons below `k`. -/
theorem parseConfig_first_invalid {V : Type} (c : Config V) (k : Nat) (r : FileResource)
    (e : ValidateError) (hk : c.Icons[k]? = some (some r)) (he : r.Validate = .error e)
    (hbefore : ∀ j : Nat, j < k →
      ∃ rj, c.Icons[j]? = some (some rj) ∧ rj.Validate = .ok ()) :
    ((∀ a b : Nat, b < a → a < k → ¬ clashAt c.Icons a b) →
      ParseConfig c = .error (.invalidIcon k e)) ∧
    ((∃ a b : Nat, b < a ∧ a < k ∧ clashAt c.Icons a b) →
      ∃ i j : Nat, j < i ∧ i < k ∧ clashAt c.Icons i j ∧
        (ParseConfig c = .error (.sameId i j) ∨ ParseConfig c = .error (.sameName i j))) ∧
    (∃ err, ParseConfig c = .error err) ∧
    (ParseError.invalidIcon k e).message =
      "failed to validate icon #" ++ toString k ++ ": " ++ e.message := by
  have hA : (∀ a b : Nat, b < a → a < k → ¬ clashAt c.Icons a b) →
      ParseConfig c = .error (.invalidIcon k e) := by
    intro hno
    apply parseConfig_of_loop_error
    have hstep : iconStep c.Icons k (some r) = .error (.invalidIcon k e) := by
      simp only [iconStep, he]
    rw [iconsLoop_first_fail c.Icons c.Icons 0 k (some r) hk
      (by rw [Nat.zero_add, hstep]; simp) ?_, Nat.zero_add, hstep]
    intro k2 q hk2 hq
    obtain ⟨r2, hr2, hv2⟩ := hbefore k2 hk2
    rw [hr2] at hq
    simp only [Option.some.injEq] at hq
    subst hq
    rw [Nat.zero_add]
    refine iconStep_ok_of_valid c.Icons k2 r2 hr2 hv2 ?_ ?_
    · intro k3 hk3
      obtain ⟨r3, hr3, _⟩ := hbefore k3 (by omega)
      exact ⟨r3, hr3⟩
    · intro j hj
      exact hno k2 j hj hk2
  have hB : (∃ a b : Nat, b < a ∧ a < k ∧ clashAt c.Icons a b) →
      ∃ i j : Nat, j < i ∧ i < k ∧ clashAt c.Icons i j ∧
        (ParseConfig c = .error (.sameId i j) ∨ ParseConfig c = .error (.sameName i j)) := by
    intro hex
    obtain ⟨i, j, hji, hik, hc, hmi, hmj⟩ := exists_first_clash c.Icons k hex
    obtain ⟨ri, rj, hi, hj, hcl⟩ := hc
    have hloop := iconsLoop_first_clash c.Icons i j ri rj hji hi hj hcl
      (fun k2 hk2 => hbefore k2 (by omega)) hmi hmj
    refine ⟨i, j, hji, hik, ⟨ri, rj, hi, hj, hcl⟩, ?_⟩
    by_cases hid : idClash ri rj
    · left
      apply parseConfig_of_loop_error
      rw [hloop, if_pos hid]
    · right
      apply parseConfig_of_loop_error
      rw [hloop, if_neg hid]
  refine ⟨hA, hB, ?_, rfl⟩
  by_cases hex : ∃ a b : Nat, b < a ∧ a < k ∧ clashAt c.Icons a b
  · obtain ⟨i, j, _, _, _, h | h⟩ := hB hex
    · exact ⟨_, h⟩
    · exact ⟨_, h⟩
  · refine ⟨_, hA ?_⟩
    intro a b hba hak hc
    exact hex ⟨a, b, hba, hak, hc⟩

/-- C6, amended, at a concrete input: icons 0 and 1 are valid and do not
collide, icon 2 has an empty path; the error names icon 2. -/
theorem parseConfig_first_invalid_witness :
    ParseConfig (⟨[some ⟨7, "", "a.ico"⟩, some ⟨0, "ALT", "b.ico"⟩, some ⟨9, "", ""⟩],
      none, []⟩ : Config Unit) = .error (.invalidIcon 2 .noPath) ∧
    (ParseError.invalidIcon 2 .noPath).message =
      "failed to validate icon #2: no file path given" :=
  ⟨(parseConfig_first_invalid
      (⟨[some ⟨7, "", "a.ico"⟩, some ⟨0, "ALT", "b.ico"⟩, some ⟨9, "", ""⟩],
        none, []⟩ : Config Unit) 2 ⟨9, "", ""⟩ .noPath rfl (by decide)
      (by
        intro j hj
        rcases j with _ | _ | j
        · exact ⟨_, rfl, by decide⟩
        · exact ⟨_, rfl, by decide⟩
        · omega)).1
      (by
        rintro a b hba hak ⟨x, y, hx, hy, hc⟩
        have ha : a = 1 := by omega
        have hb : b = 0 := by omega
        subst ha
        subst hb
        simp only [List.getElem?_cons_succ, List.getElem?_cons_zero, Option.some.injEq] at hx hy
        subst hx
        subst hy
        revert hc
        decide),
   by decide⟩

/-- C7: when every icon passes `Validate` and some two icons share a non-zero
id or a non-empty name, the validation fails with a duplicate-identifier error
naming `i` and `j` with `j < i`, where `i` is the smallest index whose icon
collides with an earlier one and `j` the smallest index whose icon collides
with icon `i`; the error has the id form when the two icons share a non-zero
id and the name form otherwise. -/
theorem parseConfig_duplicate {V : Type} (c : Config V)
    (hvalid : ∀ p ∈ c.Icons, ∃ r, p = some r ∧ r.Validate = .ok ())
    (hclash : ∃ a b : Nat, a ≠ b ∧ clashAt c.Icons a b) :
    ∃ (i j : Nat) (ri rj : FileResource), j < i ∧
      c.Icons[i]? = some (some ri) ∧ c.Icons[j]? = some (some rj) ∧
      (idClash ri rj ∨ nameClash ri rj) ∧
      (∀ i2 j2 : Nat, j2 < i2 → i2 < i → ¬ clashAt c.Icons i2 j2) ∧
      (∀ j2 : Nat, j2 < j → ¬ clashAt c.Icons i j2) ∧
      ParseConfig c = .error (if idClash ri rj then .sameId i j else .sameName i j) := by
  have hex : ∃ a b : Nat, b < a ∧ a < c.Icons.length ∧ clashAt c.Icons a b := by
    obtain ⟨a, b, hab, hc⟩ := hclash
    have hlen : ∀ n : Nat, ∀ x, c.Icons[n]? = some x → n < c.Icons.length := by
      intro n x hx
      by_contra hge
      rw [List.getElem?_eq_none (by omega)] at hx
      cases hx
    rcases Nat.lt_or_gt_of_ne hab with hlt | hgt
    · obtain ⟨x, y, hx, hy, hxy⟩ := hc
      exact ⟨b, a, hlt, hlen b _ hy, (clashAt_comm c.Icons a b).1 ⟨x, y, hx, hy, hxy⟩⟩
    · obtain ⟨x, y, hx, hy, hxy⟩ := hc
      exact ⟨a, b, hgt, hlen a _ hx, ⟨x, y, hx, hy, hxy⟩⟩
  obtain ⟨i, j, hji, hilen, ⟨ri, rj, hi, hj, hcl⟩, hmi, hmj⟩ :=
    exists_first_clash c.Icons c.Icons.length hex
  refine ⟨i, j, ri, rj, hji, hi, hj, hcl, hmi, hmj, ?_⟩
  apply parseConfig_of_loop_error
  refine iconsLoop_first_clash c.Icons i j ri rj hji hi hj hcl ?_ hmi hmj
  intro k hk
  have hklen : k < c.Icons.length := by omega
  obtain ⟨r, hr, hv⟩ := hvalid c.Icons[k] (List.getElem_mem _)
  exact ⟨r, by rw [List.getElem?_eq_getElem hklen, hr], hv⟩

/-- C7, at a concrete input: two icons that both have the id 7 are rejected
with the id form of the error naming icons 1 and 0. -/
theorem parseConfig_duplicate_witness :
    ParseConfig (⟨[some ⟨7, "", "a.ico"⟩, some ⟨7, "", "b.ico"⟩], none, []⟩ : Config Unit) =
      .error (.sameId 1 0) ∧
    (ParseError.sameId 1 0).message = "icon #1\x27s id and icon #0\x27s id are same" ∧
    ∃ (i j : Nat) (ri rj : FileResource), j < i ∧
      [some (⟨7, "", "a.ico"⟩ : FileResource), some ⟨7, "", "b.ico"⟩][i]? = some (some ri) ∧
      [some (⟨7, "", "a.ico"⟩ : FileResource), some ⟨7, "", "b.ico"⟩][j]? = some (some rj) ∧
      (idClash ri rj ∨ nameClash ri rj) ∧
      (∀ i2 j2 : Nat, j2 < i2 → i2 < i →
        ¬ clashAt [some ⟨7, "", "a.ico"⟩, some ⟨7, "", "b.ico"⟩] i2 j2) ∧
      (∀ j2 : Nat, j2 < j → ¬ clashAt [some ⟨7, "", "a.ico"⟩, some ⟨7, "", "b.ico"⟩] i j2) ∧
      ParseConfig (⟨[some ⟨7, "", "a.ico"⟩, some ⟨7, "", "b.ico"⟩], none, []⟩ : Config Unit) =
        .error (if idClash ri rj then .sameId i j else .sameName i j) :=
  ⟨by decide, by decide,
   parseConfig_duplicate
    (⟨[some ⟨7, "", "a.ico"⟩, some ⟨7, "", "b.ico"⟩], none, []⟩ : Config Unit)
    (by
      intro p hp
      simp only [List.mem_cons, List.mem_singleton, List.not_mem_nil, or_false] at hp
      rcases hp with rfl | rfl
      · exact ⟨_, rfl, by decide⟩
      · exact ⟨_, rfl, by decide⟩)
    ⟨1, 0, by decide, ⟨7, "", "b.ico"⟩, ⟨7, "", "a.ico"⟩, rfl, rfl, Or.inl (by decide)⟩⟩

/-- C8 as stated fails: two icons with the ids 7 and 8 and the same name "X"
are not rejected for the name collision; icon 0 already fails `Validate`
because it has both an id and a name. -/
theorem parseConfig_same_name_counterexample :
    ParseConfig (⟨[some ⟨7, "X", "a.ico"⟩, some ⟨8, "X", "b.ico"⟩], none, []⟩ : Config Unit) =
      .error (.invalidIcon 0 .idAndName) ∧
    ParseConfig (⟨[some ⟨7, "X", "a.ico"⟩, some ⟨8, "X", "b.ico"⟩], none, []⟩ : Config Unit) ≠
      .error (.sameName 1 0) ∧
    (ParseError.invalidIcon 0 .idAndName).message =
      "failed to validate icon #0: id and name cannot be set together" ∧
    (ParseError.invalidIcon 0 .idAndName).message ≠
      "icon #1\x27s name and icon #0\x27s name are same" := by
  decide

/-- C8, amended: two icons with non-empty paths, the ids 7 and 8 and the same
name "X" are rejected with the `Validate` failure of icon 0 (an id and a name
set together); the name-collision error is what two icons with non-empty
paths, no id and the same name "X" get. -/
theorem parseConfig_same_name {V : Type} (p q : String) (m : Option FileResource)
    (vs : List (Option V)) (hp : p ≠ "") (hq : q ≠ "") :
    ParseConfig (⟨[some ⟨7, "X", p⟩, some ⟨8, "X", q⟩], m, vs⟩ : Config V) =
      .error (.invalidIcon 0 .idAndName) ∧
    (ParseError.invalidIcon 0 .idAndName).message =
      "failed to validate icon #0: id and name cannot be set together" ∧
    ParseConfig (⟨[some ⟨0, "X", p⟩, some ⟨0, "X", q⟩], m, vs⟩ : Config V) =
      .error (.sameName 1 0) ∧
    (ParseError.sameName 1 0).message = "icon #1\x27s name and icon #0\x27s name are same" := by
  refine ⟨?_, by decide, ?_, by decide⟩
  · simp [ParseConfig, iconsLoop, iconStep, FileResource.Validate, hp]
  · simp [ParseConfig, iconsLoop, iconStep, innerLoop, FileResource.Validate, hp, hq,
      idClash, nameClash]

/-- C8, amended, at concrete paths. -/
theorem parseConfig_same_name_witness :
    ParseConfig (⟨[some ⟨7, "X", "a.ico"⟩, some ⟨8, "X", "b.ico"⟩], none, []⟩ : Config Unit) =
      .error (.invalidIcon 0 .idAndName) ∧
    ParseConfig (⟨[some ⟨0, "X", "a.ico"⟩, some ⟨0, "X", "b.ico"⟩], none, []⟩ : Config Unit) =
      .error (.sameName 1 0) :=
  ⟨(parseConfig_same_name "a.ico" "b.ico" none ([] : List (Option Unit))
      (by decide) (by decide)).1,
   (parseConfig_same_name "a.ico" "b.ico" none ([] : List (Option Unit))
      (by decide) (by decide)).2.2.1⟩

/-- C9: an icon with a positive id and an icon with a non-empty name never
collide: the configuration with exactly these two icons, in either order, with
non-empty paths and a manifest that is absent or valid, passes the
validation. -/
theorem parseConfig_id_and_name {V : Type} (n : Int) (s p q : String)
    (m : Option FileResource) (vs : List (Option V))
    (hn : 0 < n) (hs : s ≠ "") (hp : p ≠ "") (hq : q ≠ "")
    (hm : ∀ x, m = some x → x.Validate = .ok ()) :
    ParseConfig (⟨[some ⟨n, "", p⟩, some ⟨0, s, q⟩], m, vs⟩ : Config V) =
      .ok ⟨[some ⟨n, "", p⟩, some ⟨0, s, q⟩], m, vs⟩ ∧
    ParseConfig (⟨[some ⟨0, s, q⟩, some ⟨n, "", p⟩], m, vs⟩ : Config V) =
      .ok ⟨[some ⟨0, s, q⟩, some ⟨n, "", p⟩], m, vs⟩ := by
  have h0 : n ≠ 0 := by omega
  have h1 : ¬ n < 0 := by omega
  constructor
  · rw [parseConfig_loop_ok]
    refine ⟨?_, hm⟩
    simp [iconsLoop, iconStep, innerLoop, FileResource.Validate, hp, hq, hs, h0, h1,
      idClash, nameClash]
  · rw [parseConfig_loop_ok]
    refine ⟨?_, hm⟩
    simp [iconsLoop, iconStep, innerLoop, FileResource.Validate, hp, hq, hs, h0, h1,
      idClash, nameClash]

/-- C9, at a concrete input: the id 7 and the name "7". -/
theorem parseConfig_id_and_name_witness :
    ParseConfig (⟨[some ⟨7, "", "a.ico"⟩, some ⟨0, "7", "b.ico"⟩], none, []⟩ : Config Unit) =
      .ok ⟨[some ⟨7, "", "a.ico"⟩, some ⟨0, "7", "b.ico"⟩], none, []⟩ ∧
    ParseConfig (⟨[some ⟨0, "7", "b.ico"⟩, some ⟨7, "", "a.ico"⟩], none, []⟩ : Config Unit) =
      .ok ⟨[some ⟨0, "7", "b.ico"⟩, some ⟨7, "", "a.ico"⟩], none, []⟩ :=
  parseConfig_id_and_name 7 "7" "a.ico" "b.ico" none ([] : List (Option Unit))
    (by decide) (by decide) (by decide) (by decide) (by simp)

/-! ## Properties of `findPossibleID` -/

/-- One unfolding of the loop of `findPossibleID`. -/
theorem findPossibleID_unfold (E : Int → Bool) (frm : Int) :
    findPossibleID E frm =
      if frm < 65536 then (if !E frm then frm else findPossibleID E (frm + 1)) else frm := by
  rw [findPossibleID]

/-- First-fit property of the scan, by induction on the distance of `frm` to
the limit. -/
theorem findPossibleID_first_free (E : Int → Bool) (d : Nat) (frm : Int)
    (hd : (65536 - frm).toNat = d)
    (h : ∃ n : Int, frm ≤ n ∧ n ≤ 65535 ∧ E n = false) :
    frm ≤ findPossibleID E frm ∧ findPossibleID E frm ≤ 65535 ∧
    E (findPossibleID E frm) = false ∧
    ∀ m : Int, frm ≤ m → m < findPossibleID E frm → E m = true := by
  induction d generalizing frm with
  | zero =>
    obtain ⟨n, h1, h2, _⟩ := h
    omega
  | succ d ih =>
    obtain ⟨n, h1, h2, h3⟩ := h
    have hlt : frm < 65536 := by omega
    rw [findPossibleID_unfold, if_pos hlt]
    cases hE : E frm with
    | false =>
      simp only [Bool.not_false, if_true]
      exact ⟨le_refl _, by omega, hE, fun m hm1 hm2 => by omega⟩
    | true =>
      simp only [Bool.not_true, Bool.false_eq_true, if_false]
      have hne : n ≠ frm := by
        intro hnf
        rw [hnf, hE] at h3
        cases h3
      obtain ⟨a1, a2, a3, a4⟩ := ih (frm + 1) (by omega) ⟨n, by omega, h2, h3⟩
      refine ⟨by omega, a2, a3, ?_⟩
      intro m hm1 hm2
      by_cases hmf : m = frm
      · rw [hmf]
        exact hE
      · exact a4 m (by omega) hm2

/-- C10 as stated fails for a start below 1: on the empty container (no id
exists) the scan from 0 returns 0, although the smallest free id that is at
least the start and lies in the range from 1 to 65535 is 1. -/
theorem findPossibleID_counterexample :
    findPossibleID (fun _ => false) 0 = 0 ∧
    (∃ n : Int, 0 ≤ n ∧ 1 ≤ n ∧ n ≤ 65535 ∧ (fun _ : Int => false) n = false) ∧
    ¬ (1 ≤ findPossibleID (fun _ => false) 0 ∧ findPossibleID (fun _ => false) 0 ≤ 65535) := by
  have h0 : findPossibleID (fun _ => false) 0 = 0 := by
    rw [findPossibleID_unfold]
    simp
  refine ⟨h0, ⟨1, by decide, by decide, by decide, rfl⟩, ?_⟩
  rw [h0]
  decide

/-- C10, amended: whenever some id `n` with `frm ≤ n ≤ 65535` is free,
`findPossibleID` returns the smallest free id that is at least `frm` (the scan
includes `frm` itself); the result is at most 65535, and at least 1 when the
start is at least 1.  With the ids 1, 2, 3 occupied and start 1 it returns 4,
on the empty container 1, with the ids 1 and 3 occupied 2. -/
theorem findPossibleID_spec :
    (∀ (E : Int → Bool) (frm : Int), (∃ n : Int, frm ≤ n ∧ n ≤ 65535 ∧ E n = false) →
      frm ≤ findPossibleID E frm ∧ findPossibleID E frm ≤ 65535 ∧
      E (findPossibleID E frm) = false ∧
      (∀ m : Int, frm ≤ m → E m = false → findPossibleID E frm ≤ m) ∧
      (1 ≤ frm → 1 ≤ findPossibleID E frm)) ∧
    findPossibleID (fun n => decide (n ∈ [(1 : Int), 2, 3])) 1 = 4 ∧
    findPossibleID (fun _ => false) 1 = 1 ∧
    findPossibleID (fun n => decide (n ∈ [(1 : Int), 3])) 1 = 2 := by
  refine ⟨?_, ?_, ?_, ?_⟩
  · intro E frm h
    obtain ⟨a1, a2, a3, a4⟩ := findPossibleID_first_free E _ frm rfl h
    refine ⟨a1, a2, a3, ?_, fun h1 => le_trans h1 a1⟩
    intro m hm1 hm2
    by_contra hlt
    have := a4 m hm1 (by omega)
    rw [hm2] at this
    cases this
  · rw [findPossibleID_unfold, findPossibleID_unfold, findPossibleID_unfold,
      findPossibleID_unfold]
    decide
  · rw [findPossibleID_unfold]
    decide
  · rw [findPossibleID_unfold, findPossibleID_unfold]
    decide

/-- C10, amended, at a concrete input: with the ids 1, 2, 3 occupied the id 4
is free, so the scan from 1 returns a free id between 1 and 65535 below which
every id from 1 on is occupied. -/
theorem findPossibleID_spec_witness :
    (1 : Int) ≤ findPossibleID (fun n => decide (n ∈ [(1 : Int), 2, 3])) 1 ∧
    findPossibleID (fun n => decide (n ∈ [(1 : Int), 2, 3])) 1 ≤ 65535 ∧
    (fun n => decide (n ∈ [(1 : Int), 2, 3]))
      (findPossibleID (fun n => decide (n ∈ [(1 : Int), 2, 3])) 1) = false ∧
    (∀ m : Int, 1 ≤ m → (fun n => decide (n ∈ [(1 : Int), 2, 3])) m = false →
      findPossibleID (fun n => decide (n ∈ [(1 : Int), 2, 3])) 1 ≤ m) ∧
    ((1 : Int) ≤ 1 → 1 ≤ findPossibleID (fun n => decide (n ∈ [(1 : Int), 2, 3])) 1) :=
  findPossibleID_spec.1 (fun n => decide (n ∈ [(1 : Int), 2, 3])) 1
    ⟨4, by decide, by decide, by decide⟩

/-- The result of the scan lies between the start and the larger of the start
and 65536, every id the scan passed over exists, and a result below 65536 is
free. -/
theorem findPossibleID_bounds (E : Int → Bool) (d : Nat) (frm : Int)
    (hd : (65536 - frm).toNat = d) :
    frm ≤ findPossibleID E frm ∧ findPossibleID E frm ≤ max frm 65536 ∧
    (∀ m : Int, frm ≤ m → m < findPossibleID E frm → E m = true) ∧
    (findPossibleID E frm < 65536 → E (findPossibleID E frm) = false) := by
  induction d generalizing frm with
  | zero =>
    have hge : ¬ frm < 65536 := by omega
    rw [findPossibleID_unfold, if_neg hge]
    exact ⟨le_refl _, le_max_left _ _, fun m h1 h2 => by omega, fun h => by omega⟩
  | succ d ih =>
    have hlt : frm < 65536 := by omega
    rw [findPossibleID_unfold, if_pos hlt]
    cases hE : E frm with
    | false =>
      simp only [Bool.not_false, if_true]
      exact ⟨le_refl _, le_max_left _ _, fun m h1 h2 => by omega, fun _ => hE⟩
    | true =>
      simp only [Bool.not_true, Bool.false_eq_true, if_false]
      obtain ⟨a1, a2, a3, a4⟩ := ih (frm + 1) (by omega)
      refine ⟨by omega, ?_, ?_, a4⟩
      · have h1 : max (frm + 1) 65536 = 65536 := max_eq_right (by omega)
        have h2 : max frm 65536 = 65536 := max_eq_right (by omega)
        rw [h2]
        rw [h1] at a2
        exact a2
      · intro m hm1 hm2
        by_cases hmf : m = frm
        · rw [hmf]
          exact hE
        · exact a3 m (by omega) hm2

/-- C19: `findPossibleID` can return a value outside the range from 1 to 65535.
When the start lies in that range and every id from the start up to 65535
exists, it returns 65536; when the start is at least 65536 it returns the start,
whatever the container reports.  In all cases the result lies between the
start and the larger of the start and 65536, and every id from the start up to
the result, excluded, exists. -/
theorem findPossibleID_range (E : Int → Bool) (frm : Int) :
    (1 ≤ frm → frm ≤ 65535 → (∀ n : Int, frm ≤ n → n ≤ 65535 → E n = true) →
      findPossibleID E frm = 65536) ∧
    (65536 ≤ frm → ∀ E2 : Int → Bool, findPossibleID E2 frm = frm) ∧
    frm ≤ findPossibleID E frm ∧ findPossibleID E frm ≤ max frm 65536 ∧
    (∀ m : Int, frm ≤ m → m < findPossibleID E frm → E m = true) := by
  obtain ⟨a1, a2, a3, a4⟩ := findPossibleID_bounds E _ frm rfl
  refine ⟨?_, ?_, a1, a2, a3⟩
  · intro h1 h2 hall
    have hmax : max frm 65536 = 65536 := max_eq_right (by omega)
    rw [hmax] at a2
    by_contra hne
    have hlt : findPossibleID E frm < 65536 := by omega
    have hfree := a4 hlt
    rw [hall _ a1 (by omega)] at hfree
    cases hfree
  · intro hge E2
    have hnot : ¬ frm < 65536 := by omega
    rw [findPossibleID_unfold, if_neg hnot]

/-- C19, at concrete inputs: with every id occupied the scan from 1 returns
65536, and the scan from 70000 returns 70000. -/
theorem findPossibleID_range_witness :
    findPossibleID (fun _ => true) 1 = 65536 ∧
    findPossibleID (fun _ => true) 70000 = 70000 :=
  ⟨(findPossibleID_range (fun _ => true) 1).1 (by decide) (by decide) (fun _ _ _ => rfl),
   (findPossibleID_range (fun _ => true) 70000).2.1 (by decide) (fun _ => true)⟩

/-! ## Nil icons in `ParseConfig` -/

/-- C20 fails on the code: a decoded configuration whose icon list holds a nil
entry makes the validation of `ParseConfig` panic, alone or after a valid icon,
while a nil manifest is skipped. -/
theorem parseConfig_nil_icon :
    ParseConfig (⟨[none], none, []⟩ : Config Unit) = .panic ∧
    ParseConfig (⟨[some ⟨1, "", "a.ico"⟩, none], none, []⟩ : Config Unit) = .panic ∧
    ParseConfig (⟨[], none, []⟩ : Config Unit) = .ok ⟨[], none, []⟩ := by
  decide

/-! ## Properties of `getOrCreateRSRCSection` -/

/-- The lookup of a name that no section of `pre` has, in `pre` followed by a
resource container, finds the container. -/
theorem section_append_rsrc (pre : List CoffSection) (s : Section)
    (h : pre.findIdx? (fun x => x.Name == ".rsrc") = none) :
    File.Section ⟨pre ++ [.rsrc s]⟩ ".rsrc" = .ok pre.length := by
  simp only [File.Section, List.findIdx?_append, h]
  simp [CoffSection.Name]

/-- The lookup fails exactly when no section has the name. -/
theorem section_not_found_iff (c : File) (name : String) :
    c.Section name = .error .ErrSectionNotFound ↔
      c.sections.findIdx? (fun x => x.Name == name) = none := by
  unfold File.Section
  cases c.sections.findIdx? (fun x => x.Name == name) <;> simp

theorem rsrcAt_append (pre : List CoffSection) (s : Section) :
    File.rsrcAt ⟨pre ++ [.rsrc s]⟩ pre.length = some s := by
  simp [File.rsrcAt]

theorem setRsrc_append (pre : List CoffSection) (s s2 : Section) :
    File.setRsrc ⟨pre ++ [.rsrc s]⟩ pre.length s2 = ⟨pre ++ [.rsrc s2]⟩ := by
  simp [File.setRsrc]

/-- On an object file without a section named ".rsrc", when the new section is
accepted, the call appends an empty container and returns the pointer to
it. -/
theorem getOrCreate_fresh (env : Env) (c : File)
    (hno : c.Section ".rsrc" = .error .ErrSectionNotFound)
    (hadd : env.addSectionError c (.rsrc New) = none) :
    getOrCreateRSRCSection env c = (⟨c.sections ++ [.rsrc New]⟩, .ok c.sections.length) := by
  simp [getOrCreateRSRCSection, hno, File.AddSection, hadd]

/-- On an object file whose section named ".rsrc" is a container, the call
changes nothing and returns the pointer to that container. -/
theorem getOrCreate_existing (env : Env) (pre : List CoffSection) (s : Section)
    (h : pre.findIdx? (fun x => x.Name == ".rsrc") = none) :
    getOrCreateRSRCSection env ⟨pre ++ [.rsrc s]⟩ = (⟨pre ++ [.rsrc s]⟩, .ok pre.length) := by
  simp [getOrCreateRSRCSection, section_append_rsrc pre s h]

/-- The possible outcomes of the call: an unchanged file, or a file with one
more section, an empty container, at its end; a pointer that is returned
points to a container. -/
theorem getOrCreate_shape (env : Env) (c : File) :
    ((getOrCreateRSRCSection env c).1 = c ∨
      (getOrCreateRSRCSection env c).1 = ⟨c.sections ++ [.rsrc New]⟩) ∧
    ∀ r : Nat, (getOrCreateRSRCSection env c).2 = .ok r →
      ∃ s : Section, (getOrCreateRSRCSection env c).1.rsrcAt r = some s := by
  unfold getOrCreateRSRCSection
  cases hS : c.Section ".rsrc" with
  | error e =>
    cases e with
    | ErrSectionNotFound =>
      simp only [File.AddSection]
      cases hadd : env.addSectionError c (.rsrc New) with
      | some msg => simp
      | none =>
        refine ⟨Or.inr rfl, ?_⟩
        intro r hr
        simp only [Except.ok.injEq] at hr
        subst hr
        exact ⟨New, rsrcAt_append c.sections New⟩
    | other msg => simp
  | ok k =>
    simp only
    cases hk : c.sections[k]? with
    | none => simp
    | some x =>
      cases x with
      | rsrc s =>
        refine ⟨Or.inl rfl, ?_⟩
        intro r hr
        simp only [Except.ok.injEq] at hr
        subst hr
        exact ⟨s, by simp [File.rsrcAt, hk]⟩
      | other n d => simp

/-- C11: `getOrCreateRSRCSection` is idempotent.  When a first call succeeds, a
second call on the resulting object file succeeds, returns the same pointer to
the same container and leaves the object file as it is; the first call adds at
most one section, an empty container, and only when no section is named
".rsrc". -/
theorem getOrCreate_idempotent (env : Env) (c c1 : File) (r : Nat)
    (h : getOrCreateRSRCSection env c = (c1, .ok r)) :
    getOrCreateRSRCSection env c1 = (c1, .ok r) ∧
    (∃ s : Section, c1.rsrcAt r = some s) ∧
    (c1 = c ∨ (c.Section ".rsrc" = .error .ErrSectionNotFound ∧
      c1 = ⟨c.sections ++ [.rsrc New]⟩)) := by
  have hshape := (getOrCreate_shape env c).2 r (by rw [h])
  rw [h] at hshape
  refine ⟨?_, hshape, ?_⟩
  · unfold getOrCreateRSRCSection at h
    cases hS : c.Section ".rsrc" with
    | error e =>
      cases e with
      | ErrSectionNotFound =>
        rw [hS] at h
        simp only [File.AddSection] at h
        cases hadd : env.addSectionError c (.rsrc New) with
        | some msg => simp [hadd] at h
        | none =>
          simp only [hadd, Prod.mk.injEq, Except.ok.injEq] at h
          obtain ⟨h1, h2⟩ := h
          subst h1
          subst h2
          exact getOrCreate_existing env c.sections New ((section_not_found_iff c ".rsrc").1 hS)
      | other msg =>
        rw [hS] at h
        simp at h
    | ok k =>
      rw [hS] at h
      simp only at h
      cases hk : c.sections[k]? with
      | none => simp [hk] at h
      | some x =>
        cases x with
        | rsrc s =>
          simp only [hk, Prod.mk.injEq, Except.ok.injEq] at h
          obtain ⟨h1, h2⟩ := h
          subst h1
          subst h2
          simp [getOrCreateRSRCSection, hS, hk]
        | other n d => simp [hk] at h
  · unfold getOrCreateRSRCSection at h
    cases hS : c.Section ".rsrc" with
    | error e =>
      cases e with
      | ErrSectionNotFound =>
        rw [hS] at h
        simp only [File.AddSection] at h
        cases hadd : env.addSectionError c (.rsrc New) with
        | some msg => simp [hadd] at h
        | none =>
          simp only [hadd, Prod.mk.injEq, Except.ok.injEq] at h
          exact Or.inr ⟨rfl, h.1.symm⟩
      | other msg =>
        rw [hS] at h
        simp at h
    | ok k =>
      rw [hS] at h
      simp only at h
      cases hk : c.sections[k]? with
      | none => simp [hk] at h
      | some x =>
        cases x with
        | rsrc s =>
          simp only [hk, Prod.mk.injEq, Except.ok.injEq] at h
          exact Or.inl h.1.symm
        | other n d => simp [hk] at h

/-- C11, at a concrete input: an object file with one section named ".text";
the first call appends the container, the second call returns the same
pointer and the same file. -/
theorem getOrCreate_idempotent_witness :
    getOrCreateRSRCSection ⟨fun _ => .ok [], fun _ => .ok ⟨[], []⟩, fun b => .ok (.raw b),
      fun _ _ => none, fun _ _ _ => none⟩ ⟨[.other ".text" [], .rsrc New]⟩ =
      (⟨[.other ".text" [], .rsrc New]⟩, .ok 1) ∧
    (∃ s : Section, File.rsrcAt ⟨[.other ".text" [], .rsrc New]⟩ 1 = some s) ∧
    ((⟨[.other ".text" [], .rsrc New]⟩ : File) = ⟨[.other ".text" []]⟩ ∨
      (File.Section ⟨[.other ".text" []]⟩ ".rsrc" = .error .ErrSectionNotFound ∧
        (⟨[.other ".text" [], .rsrc New]⟩ : File) =
          ⟨[CoffSection.other ".text" []] ++ [.rsrc New]⟩)) :=
  getOrCreate_idempotent
    ⟨fun _ => .ok [], fun _ => .ok ⟨[], []⟩, fun b => .ok (.raw b),
      fun _ _ => none, fun _ _ _ => none⟩
    ⟨[.other ".text" []]⟩ ⟨[.other ".text" [], .rsrc New]⟩ 1 (by decide)

/-- C12: when the section the object file holds under the name ".rsrc" is not
a resource container, `getOrCreateRSRCSection` fails with the type-mismatch
error and the object file after the call is the object file before it. -/
theorem getOrCreate_foreign (env : Env) (c : File) (k : Nat) (name : String) (d : List Nat)
    (hk : c.Section ".rsrc" = .ok k) (hs : c.sections[k]? = some (.other name d)) :
    getOrCreateRSRCSection env c = (c, .error .notRsrc) ∧
    SectionError.notRsrc.message = "the .rsrc section is not a valid rsrc section" := by
  refine ⟨?_, rfl⟩
  simp [getOrCreateRSRCSection, hk, hs]

/-- C12, at a concrete input: a file whose second section is a foreign section
named ".rsrc". -/
theorem getOrCreate_foreign_witness :
    getOrCreateRSRCSection ⟨fun _ => .ok [], fun _ => .ok ⟨[], []⟩, fun b => .ok (.raw b),
      fun _ _ => none, fun _ _ _ => none⟩ ⟨[.other ".text" [], .other ".rsrc" [1, 2]]⟩ =
      (⟨[.other ".text" [], .other ".rsrc" [1, 2]]⟩, .error .notRsrc) ∧
    SectionError.notRsrc.message = "the .rsrc section is not a valid rsrc section" :=
  getOrCreate_foreign
    ⟨fun _ => .ok [], fun _ => .ok ⟨[], []⟩, fun b => .ok (.raw b),
      fun _ _ => none, fun _ _ _ => none⟩
    ⟨[.other ".text" [], .other ".rsrc" [1, 2]]⟩ 1 ".rsrc" [1, 2] (by decide) (by decide)

/-! ## Properties of `EmbedIcon` and `EmbedManifest` -/

/-- C17: `EmbedIcon` and `EmbedManifest` validate their spec before anything
else.  For a spec that fails `Validate` the call returns the error that wraps
the `Validate` failure and the object file is the one it was given, whatever
the external collaborators would answer. -/
theorem embed_revalidates (env : Env) (c : File) (spec : FileResource) (e : ValidateError)
    (h : spec.Validate = .error e) :
    EmbedIcon env c (some spec) = (c, .error (.invalidIcon e)) ∧
    EmbedManifest env c (some spec) = (c, .error (.invalidManifest e)) ∧
    (EmbedError.invalidIcon e).message = "invalid icon: " ++ e.message ∧
    (EmbedError.invalidManifest e).message = "invalid manifest: " ++ e.message := by
  refine ⟨?_, ?_, rfl, rfl⟩
  · simp [EmbedIcon, h]
  · simp [EmbedManifest, h]

/-- C17, at a concrete input: a spec with an empty path and an object file
without a container; no container is created. -/
theorem embed_revalidates_witness :
    EmbedIcon ⟨fun _ => .ok [], fun _ => .ok ⟨[], []⟩, fun b => .ok (.raw b),
      fun _ _ => none, fun _ _ _ => none⟩ ⟨[.other ".text" []]⟩ (some ⟨7, "", ""⟩) =
      (⟨[.other ".text" []]⟩, .error (.invalidIcon .noPath)) ∧
    EmbedManifest ⟨fun _ => .ok [], fun _ => .ok ⟨[], []⟩, fun b => .ok (.raw b),
      fun _ _ => none, fun _ _ _ => none⟩ ⟨[.other ".text" []]⟩ (some ⟨7, "", ""⟩) =
      (⟨[.other ".text" []]⟩, .error (.invalidManifest .noPath)) ∧
    (EmbedError.invalidIcon .noPath).message = "invalid icon: no file path given" :=
  ⟨(embed_revalidates _ ⟨[.other ".text" []]⟩ ⟨7, "", ""⟩ .noPath (by decide)).1,
   (embed_revalidates _ ⟨[.other ".text" []]⟩ ⟨7, "", ""⟩ .noPath (by decide)).2.1,
   by decide⟩

/-- The existence query after one more entry. -/
theorem resourceIDExists_append (l : List Resource) (e : Resource) (n : Int) :
    Section.ResourceIDExists ⟨l ++ [e]⟩ n =
      (Section.ResourceIDExists ⟨l⟩ n || decide (e.ident = .id n)) := by
  simp [Section.ResourceIDExists, List.any_append]

/-- When exactly the ids from 1 to `M` exist and `M` is below 65535, the scan
from 1 returns `M + 1`. -/
theorem findPossibleID_next (E : Int → Bool) (M : Int) (hM : 0 ≤ M) (hlt : M < 65535)
    (hE : ∀ n : Int, E n = true ↔ (1 ≤ n ∧ n ≤ M)) :
    findPossibleID E 1 = M + 1 := by
  have hfree : E (M + 1) = false := by
    cases h : E (M + 1) with
    | false => rfl
    | true =>
      have := (hE (M + 1)).1 h
      omega
  obtain ⟨a1, a2, a3, a4⟩ :=
    findPossibleID_first_free E _ 1 rfl ⟨M + 1, by omega, by omega, hfree⟩
  have hgt : M < findPossibleID E 1 := by
    by_contra hle
    have := (hE (findPossibleID E 1)).2 ⟨a1, by omega⟩
    rw [a3] at this
    cases this
  by_contra hne
  have := a4 (M + 1) (by omega) (by omega)
  rw [hfree] at this
  cases this

/-- The last registration, when the container accepts it. -/
theorem addByIdentifier_accept (env : Env) (r : Section) (typ : ResourceType)
    (spec : FileResource) (b : Blob)
    (hacc : env.addResourceError r typ (specIdentifier spec) = none) :
    addByIdentifier env r typ spec b =
      (⟨r.resources ++ [⟨typ, specIdentifier spec, b⟩]⟩, .ok ()) := by
  unfold addByIdentifier
  by_cases h : spec.ID ≠ 0
  · have hk : specIdentifier spec = .id spec.ID := by
      unfold specIdentifier
      rw [if_pos h]
    rw [hk] at hacc ⊢
    rw [if_pos h]
    simp [Section.AddResourceByID, hacc]
  · have hk : specIdentifier spec = .name spec.Name := by
      unfold specIdentifier
      rw [if_neg h]
    rw [hk] at hacc ⊢
    rw [if_neg h]
    simp [Section.AddResourceByName, hacc]

/-- The image loop on a container in which exactly the ids from 1 to `M`
exist, every registration being accepted: the images get the ids that follow
`M`, in order, and exactly the ids up to `M` plus the number of images exist
afterwards. -/
theorem addImages_accept (env : Env)
    (hacc : ∀ (r : Section) (t : ResourceType) (i : Identifier),
      env.addResourceError r t i = none)
    (imgs : List Image) (r : Section) (M : Int) (i : Nat) (hM : 0 ≤ M)
    (hlen : M + imgs.length ≤ 65535)
    (hE : ∀ n : Int, r.ResourceIDExists n = true ↔ (1 ≤ n ∧ n ≤ M)) :
    addImages env r i imgs =
      (⟨r.resources ++ (assignIDs (M + 1) imgs).map imageEntry⟩,
        assignIDs (M + 1) imgs, .ok ()) ∧
    ∀ n : Int, Section.ResourceIDExists
        ⟨r.resources ++ (assignIDs (M + 1) imgs).map imageEntry⟩ n = true ↔
      (1 ≤ n ∧ n ≤ M + imgs.length) := by
  induction imgs generalizing r M i with
  | nil =>
    refine ⟨by simp [addImages, assignIDs], ?_⟩
    intro n
    simpa [assignIDs] using hE n
  | cons img rest ih =>
    have hlen2 : M + 1 + (rest.length : Int) ≤ 65535 := by
      simp only [List.length_cons, Nat.cast_add, Nat.cast_one] at hlen
      omega
    have hnext : findPossibleID r.ResourceIDExists 1 = M + 1 :=
      findPossibleID_next _ M hM (by omega) hE
    have hE1 : ∀ n : Int, Section.ResourceIDExists
        ⟨r.resources ++ [imageEntry ⟨M + 1, img.data⟩]⟩ n = true ↔ (1 ≤ n ∧ n ≤ M + 1) := by
      intro n
      rw [resourceIDExists_append]
      have := hE n
      simp only [Bool.or_eq_true, decide_eq_true_eq, imageEntry, Identifier.id.injEq]
      constructor
      · rintro (h | h)
        · have := this.1 h
          omega
        · omega
      · intro h
        by_cases hn : n = M + 1
        · right
          exact hn.symm
        · left
          exact this.2 ⟨h.1, by omega⟩
    obtain ⟨ih1, ih2⟩ := ih ⟨r.resources ++ [imageEntry ⟨M + 1, img.data⟩]⟩ (M + 1) (i + 1)
      (by omega) hlen2 hE1
    constructor
    · simp only [addImages, hnext, Section.AddResourceByID, hacc]
      have : (⟨r.resources ++ [⟨.IconResource, .id (M + 1), .image ⟨M + 1, img.data⟩⟩]⟩ : Section)
          = ⟨r.resources ++ [imageEntry ⟨M + 1, img.data⟩]⟩ := rfl
      rw [this, ih1]
      simp [assignIDs, List.append_assoc]
    · intro n
      have := ih2 n
      simp only [List.length_cons, Nat.cast_add, Nat.cast_one]
      simp only [assignIDs, List.map_cons]
      simp only [List.append_assoc, List.singleton_append] at this
      rw [this]
      omega

/-- The registrations of `EmbedIcon` on such a container, every registration
being accepted. -/
theorem registerIcon_accept (env : Env)
    (hacc : ∀ (r : Section) (t : ResourceType) (i : Identifier),
      env.addResourceError r t i = none)
    (r : Section) (icon : FileResource) (icons : Group) (M : Int) (hM : 0 ≤ M)
    (hlen : M + icons.Images.length ≤ 65535)
    (hE : ∀ n : Int, r.ResourceIDExists n = true ↔ (1 ≤ n ∧ n ≤ M)) :
    registerIcon env r icon icons =
      (⟨r.resources ++ (assignIDs (M + 1) icons.Images).map imageEntry ++
          [⟨.IconGroupResource, specIdentifier icon,
            .group ⟨assignIDs (M + 1) icons.Images, icons.descriptor⟩⟩]⟩, .ok ()) := by
  unfold registerIcon
  rw [(addImages_accept env hacc icons.Images r M 0 hM hlen hE).1]
  simp only
  rw [addByIdentifier_accept env _ _ _ _ (hacc _ _ _)]

/-- `EmbedIcon` on an object file without a section named ".rsrc": a new
container is appended and the registrations run on it. -/
theorem embedIcon_on_fresh (env : Env) (c : File) (icon : FileResource) (f : List Nat)
    (icons : Group) (hv : icon.Validate = .ok ())
    (hno : c.Section ".rsrc" = .error .ErrSectionNotFound)
    (hadd : env.addSectionError c (.rsrc New) = none)
    (hopen : env.Open icon.Path = .ok f) (hdec : env.DecodeAll f = .ok icons) :
    EmbedIcon env c (some icon) =
      (⟨c.sections ++ [.rsrc (registerIcon env New icon icons).1]⟩,
        (registerIcon env New icon icons).2) := by
  simp only [EmbedIcon, hv, getOrCreate_fresh env c hno hadd, hopen, hdec,
    rsrcAt_append, setRsrc_append]

/-- `EmbedIcon` on an object file whose section named ".rsrc" is a container:
the registrations run on that container. -/
theorem embedIcon_on_existing (env : Env) (pre : List CoffSection) (s : Section)
    (icon : FileResource) (f : List Nat) (icons : Group)
    (hpre : pre.findIdx? (fun x => x.Name == ".rsrc") = none)
    (hv : icon.Validate = .ok ())
    (hopen : env.Open icon.Path = .ok f) (hdec : env.DecodeAll f = .ok icons) :
    EmbedIcon env ⟨pre ++ [.rsrc s]⟩ (some icon) =
      (⟨pre ++ [.rsrc (registerIcon env s icon icons).1]⟩,
        (registerIcon env s icon icons).2) := by
  simp only [EmbedIcon, hv, getOrCreate_existing env pre s hpre, hopen, hdec,
    rsrcAt_append, setRsrc_append]

/-- The ids of the images numbered from `start`. -/
theorem assignIDs_ids (imgs : List Image) (start : Int) :
    (assignIDs start imgs).map (fun img => img.ID) =
      (List.range imgs.length).map (fun (k : Nat) => start + (k : Int)) := by
  induction imgs generalizing start with
  | nil => simp [assignIDs]
  | cons img rest ih =>
    simp only [assignIDs, List.map_cons, List.length_cons, List.range_succ_eq_map,
      List.map_map, ih]
    refine List.cons_eq_cons.2 ⟨by simp, ?_⟩
    apply List.map_congr_left
    intro k _
    simp only [Function.comp_apply]
    push_cast
    omega

theorem assignIDs_length (imgs : List Image) (start : Int) :
    (assignIDs start imgs).length = imgs.length := by
  induction imgs generalizing start with
  | nil => rfl
  | cons img rest ih => simp [assignIDs, ih]

/-- No id exists in an empty container. -/
theorem new_exists_iff (n : Int) :
    New.ResourceIDExists n = true ↔ (1 ≤ n ∧ n ≤ 0) := by
  simp only [New, Section.ResourceIDExists, List.any_nil, Bool.false_eq_true, false_iff]
  omega

/-- C13: for a valid icon spec whose file decodes to `n` images, `n` at most
65535, `EmbedIcon` on an object file without a section named ".rsrc", the new
section and every registration being accepted, succeeds and leaves a new
container that holds exactly the `n` images as `IconResource` entries with the
ids 1, 2, ..., `n` in decode order, followed by one `IconGroupResource` entry
keyed by the id of the spec when it is not zero and by its name otherwise. -/
theorem embedIcon_fresh (env : Env) (c : File) (icon : FileResource) (f : List Nat)
    (icons : Group) (hv : icon.Validate = .ok ())
    (hno : c.Section ".rsrc" = .error .ErrSectionNotFound)
    (hadd : env.addSectionError c (.rsrc New) = none)
    (hopen : env.Open icon.Path = .ok f) (hdec : env.DecodeAll f = .ok icons)
    (hn : icons.Images.length ≤ 65535)
    (hacc : ∀ (r : Section) (t : ResourceType) (i : Identifier),
      env.addResourceError r t i = none) :
    EmbedIcon env c (some icon) =
      (⟨c.sections ++ [.rsrc ⟨(assignIDs 1 icons.Images).map imageEntry ++
        [⟨.IconGroupResource, if icon.ID ≠ 0 then .id icon.ID else .name icon.Name,
          .group ⟨assignIDs 1 icons.Images, icons.descriptor⟩⟩]⟩]⟩, .ok ()) ∧
    ((assignIDs 1 icons.Images).map imageEntry).map (fun e => (e.typ, e.ident)) =
      (List.range icons.Images.length).map
        (fun (k : Nat) => (ResourceType.IconResource, Identifier.id ((k : Int) + 1))) := by
  constructor
  · rw [embedIcon_on_fresh env c icon f icons hv hno hadd hopen hdec]
    have hreg := registerIcon_accept env hacc New icon icons 0 (le_refl 0)
      (by
        have : (icons.Images.length : Int) ≤ 65535 := by exact_mod_cast hn
        omega)
      new_exists_iff
    rw [hreg]
    simp [New, specIdentifier]
  · have h := assignIDs_ids icons.Images 1
    have h2 : ((assignIDs 1 icons.Images).map imageEntry).map (fun e => (e.typ, e.ident)) =
        ((assignIDs 1 icons.Images).map (fun img => img.ID)).map
          (fun n => (ResourceType.IconResource, Identifier.id n)) := by
      simp [List.map_map, imageEntry, Function.comp_def]
    rw [h2, h]
    simp only [List.map_map]
    apply List.map_congr_left
    intro k _
    simp only [Function.comp_apply, Prod.mk.injEq, Identifier.id.injEq, true_and]
    omega

/-- C13, at a concrete input: the spec with id 101 whose file decodes to three
images gives the image ids 1, 2, 3 and one icon group keyed by the id 101. -/
theorem embedIcon_fresh_witness :
    EmbedIcon (acceptAll [⟨0, [10]⟩, ⟨0, [20]⟩, ⟨0, [30]⟩]) ⟨[]⟩
        (some ⟨101, "", "app.ico"⟩) =
      (⟨[.rsrc ⟨[⟨.IconResource, .id 1, .image ⟨1, [10]⟩⟩,
          ⟨.IconResource, .id 2, .image ⟨2, [20]⟩⟩,
          ⟨.IconResource, .id 3, .image ⟨3, [30]⟩⟩,
          ⟨.IconGroupResource, .id 101,
            .group ⟨[⟨1, [10]⟩, ⟨2, [20]⟩, ⟨3, [30]⟩], []⟩⟩]⟩]⟩, .ok ()) :=
  (embedIcon_fresh (acceptAll [⟨0, [10]⟩, ⟨0, [20]⟩, ⟨0, [30]⟩]) ⟨[]⟩
    ⟨101, "", "app.ico"⟩ [] ⟨[⟨0, [10]⟩, ⟨0, [20]⟩, ⟨0, [30]⟩], []⟩
    (by decide) (by decide) rfl rfl rfl (by decide) (fun _ _ _ => rfl)).1

/-- C15: for a valid manifest spec whose file can be read, `EmbedManifest` on
an object file without a section named ".rsrc", the new section and the
registration being accepted, succeeds and leaves a new container that holds
exactly one entry: the `ManifestResource` keyed by the id of the spec when it
is not zero and by its name otherwise. -/
theorem embedManifest_fresh (env : Env) (c : File) (m : FileResource) (f : List Nat)
    (b : Blob) (hv : m.Validate = .ok ())
    (hno : c.Section ".rsrc" = .error .ErrSectionNotFound)
    (hadd : env.addSectionError c (.rsrc New) = none)
    (hopen : env.Open m.Path = .ok f) (hblob : env.NewBlob f = .ok b)
    (hacc : env.addResourceError New .ManifestResource (specIdentifier m) = none) :
    EmbedManifest env c (some m) =
      (⟨c.sections ++ [.rsrc ⟨[⟨.ManifestResource,
        if m.ID ≠ 0 then .id m.ID else .name m.Name, b⟩]⟩]⟩, .ok ()) := by
  simp only [EmbedManifest, hv, getOrCreate_fresh env c hno hadd, hopen, hblob,
    rsrcAt_append, setRsrc_append, addByIdentifier_accept env New _ m b hacc]
  simp [New, specIdentifier]

/-- C15, at a concrete input: the manifest with id 1 gives exactly one
manifest entry keyed by the id 1. -/
theorem embedManifest_fresh_witness :
    EmbedManifest (acceptAll []) ⟨[]⟩ (some ⟨1, "", "app.manifest"⟩) =
      (⟨[.rsrc ⟨[⟨.ManifestResource, .id 1, .raw []⟩]⟩]⟩, .ok ()) :=
  embedManifest_fresh (acceptAll []) ⟨[]⟩ ⟨1, "", "app.manifest"⟩ [] (.raw [])
    (by decide) (by decide) rfl rfl rfl rfl

/-! ## Cumulative allocation across icon specs -/

theorem resources_single (s : Section) : File.resources ⟨[.rsrc s]⟩ = s.resources := by
  simp [File.resources, File.Section, File.rsrcAt, CoffSection.Name]

theorem decoded_eq_some (env : Env) (spec : FileResource) (icons : Group)
    (h : decoded env spec = some icons) :
    ∃ f, env.Open spec.Path = .ok f ∧ env.DecodeAll f = .ok icons := by
  unfold decoded at h
  cases hO : env.Open spec.Path with
  | error e => simp [hO] at h
  | ok f =>
    cases hD : env.DecodeAll f with
    | error e => simp [hO, hD] at h
    | ok g =>
      simp only [hO, hD, Option.some.injEq] at h
      subst h
      exact ⟨f, rfl, hD⟩

/-- The run over named icon specs on an object file that holds one container
in which exactly the ids from 1 to `M` exist. -/
theorem namedIcons_on_existing (env : Env)
    (hacc : ∀ (r : Section) (t : ResourceType) (i : Identifier),
      env.addResourceError r t i = none)
    (specs : List FileResource) (s : Section) (M : Int) (i : Nat)
    (hvalid : ∀ spec ∈ specs, spec.Validate = .ok () ∧ spec.ID = 0)
    (hdec : ∀ spec ∈ specs, ∃ icons, decoded env spec = some icons)
    (hM : 0 ≤ M) (hN : M + totalImages env specs ≤ 65535)
    (hE : ∀ n : Int, s.ResourceIDExists n = true ↔ (1 ≤ n ∧ n ≤ M)) :
    embedIcons env ⟨[.rsrc s]⟩ i (specs.map some) =
      (⟨[.rsrc ⟨s.resources ++ namedIconEntries env (M + 1) specs⟩]⟩, .ok ()) := by
  induction specs generalizing s M i with
  | nil => simp [embedIcons, namedIconEntries]
  | cons spec rest ih =>
    obtain ⟨icons, hd⟩ := hdec spec (List.mem_cons_self _ _)
    obtain ⟨f, hO, hD⟩ := decoded_eq_some env spec icons hd
    obtain ⟨hv, hid⟩ := hvalid spec (List.mem_cons_self _ _)
    have htot : totalImages env (spec :: rest) = icons.Images.length + totalImages env rest := by
      simp [totalImages, hd]
    rw [htot] at hN
    push_cast at hN
    have hlen : M + (icons.Images.length : Int) ≤ 65535 := by omega
    have hstep := embedIcon_on_existing env [] s spec f icons (by simp) hv hO hD
    rw [registerIcon_accept env hacc s spec icons M hM hlen hE] at hstep
    simp only [List.nil_append] at hstep
    have hkey : specIdentifier spec = .name spec.Name := by
      simp [specIdentifier, hid]
    rw [hkey] at hstep
    simp only [List.map_cons, embedIcons, hstep]
    have hE2 : ∀ n : Int, Section.ResourceIDExists
        ⟨s.resources ++ (assignIDs (M + 1) icons.Images).map imageEntry ++
          [⟨.IconGroupResource, .name spec.Name,
            .group ⟨assignIDs (M + 1) icons.Images, icons.descriptor⟩⟩]⟩ n = true ↔
        (1 ≤ n ∧ n ≤ M + icons.Images.length) := by
      intro n
      rw [resourceIDExists_append]
      have hname : decide (Identifier.name spec.Name = Identifier.id n) = false := by
        simp
      rw [hname, Bool.or_false]
      exact (addImages_accept env hacc icons.Images s M 0 hM hlen hE).2 n
    rw [ih _ (M + icons.Images.length) (i + 1)
      (fun x hx => hvalid x (List.mem_cons_of_mem _ hx))
      (fun x hx => hdec x (List.mem_cons_of_mem _ hx)) (by omega) (by omega) hE2]
    have hidx : M + (icons.Images.length : Int) + 1 = M + 1 + (icons.Images.length : Int) := by
      omega
    simp [namedIconEntries, hd, hidx, List.append_assoc]

theorem filter_images_imageEntry (l : List Image) :
    ((l.map imageEntry).filter (fun e => decide (e.typ = .IconResource))) =
      l.map imageEntry := by
  rw [List.filter_eq_self]
  intro e he
  obtain ⟨img, _, rfl⟩ := List.mem_map.1 he
  simp [imageEntry]

theorem filter_groups_imageEntry (l : List Image) :
    ((l.map imageEntry).filter (fun e => decide (e.typ = .IconGroupResource))) = [] := by
  rw [List.filter_eq_nil_iff]
  intro e he
  obtain ⟨img, _, rfl⟩ := List.mem_map.1 he
  simp [imageEntry]

/-- The image entries of `namedIconEntries` carry the consecutive ids from
`start` on, as many as there are images. -/
theorem namedIconEntries_images (env : Env) (specs : List FileResource) (start : Int)
    (hdec : ∀ spec ∈ specs, ∃ icons, decoded env spec = some icons) :
    ((namedIconEntries env start specs).filter
        (fun e => decide (e.typ = .IconResource))).map (fun e => e.ident) =
      (List.range (totalImages env specs)).map
        (fun (k : Nat) => Identifier.id (start + (k : Int))) := by
  induction specs generalizing start with
  | nil => simp [namedIconEntries, totalImages]
  | cons spec rest ih =>
    obtain ⟨icons, hd⟩ := hdec spec (List.mem_cons_self _ _)
    have ih2 := ih (start + icons.Images.length)
      (fun x hx => hdec x (List.mem_cons_of_mem _ hx))
    have hids := assignIDs_ids icons.Images start
    have hmap : ((assignIDs start icons.Images).map imageEntry).map (fun e => e.ident) =
        ((assignIDs start icons.Images).map (fun img => img.ID)).map Identifier.id := by
      simp [List.map_map, imageEntry, Function.comp_def]
    simp only [namedIconEntries, hd, totalImages, List.filter_append, List.map_append,
      filter_images_imageEntry, ih2, hmap, hids, List.range_add, List.map_map]
    simp only [List.filter_cons, List.filter_nil]
    simp only [reduceCtorEq, decide_False, Bool.false_eq_true, if_false, List.map_nil,
      List.append_nil]
    congr 1
    apply List.map_congr_left
    intro k _
    simp only [Function.comp_apply, Identifier.id.injEq]
    push_cast
    omega

/-- The group entries of `namedIconEntries` are keyed by the names of the
specs, in order. -/
theorem namedIconEntries_groups (env : Env) (specs : List FileResource) (start : Int)
    (hdec : ∀ spec ∈ specs, ∃ icons, decoded env spec = some icons) :
    ((namedIconEntries env start specs).filter
        (fun e => decide (e.typ = .IconGroupResource))).map (fun e => e.ident) =
      specs.map (fun spec => Identifier.name spec.Name) := by
  induction specs generalizing start with
  | nil => simp [namedIconEntries]
  | cons spec rest ih =>
    obtain ⟨icons, hd⟩ := hdec spec (List.mem_cons_self _ _)
    have ih2 := ih (start + icons.Images.length)
      (fun x hx => hdec x (List.mem_cons_of_mem _ hx))
    simp only [namedIconEntries, hd, List.filter_append, List.map_append,
      filter_groups_imageEntry, ih2]
    simp

/-- C14: allocation is cumulative across specs.  Valid named icon specs whose
files decode, embedded in order by `EmbedIcon` into an object file without
sections, the total number of images being at most 65535 and the new section
and every registration being accepted: the run succeeds, the container holds
for each spec in order its images under the ids that follow those of the spec
before it, then its icon group under its name; the image ids are 1, 2, ... up
to the total number of images, the groups are keyed by the names of the
specs. -/
theorem embedIcons_named (env : Env) (specs : List FileResource)
    (hvalid : ∀ spec ∈ specs, spec.Validate = .ok () ∧ spec.ID = 0)
    (hdec : ∀ spec ∈ specs, ∃ icons, decoded env spec = some icons)
    (hN : totalImages env specs ≤ 65535)
    (hadd : env.addSectionError ⟨[]⟩ (.rsrc New) = none)
    (hacc : ∀ (r : Section) (t : ResourceType) (i : Identifier),
      env.addResourceError r t i = none) :
    (embedIcons env ⟨[]⟩ 0 (specs.map some)).2 = .ok () ∧
    (embedIcons env ⟨[]⟩ 0 (specs.map some)).1.resources = namedIconEntries env 1 specs ∧
    ((namedIconEntries env 1 specs).filter
        (fun e => decide (e.typ = .IconResource))).map (fun e => e.ident) =
      (List.range (totalImages env specs)).map
        (fun (k : Nat) => Identifier.id ((k : Int) + 1)) ∧
    ((namedIconEntries env 1 specs).filter
        (fun e => decide (e.typ = .IconGroupResource))).map (fun e => e.ident) =
      specs.map (fun spec => Identifier.name spec.Name) := by
  have himg := namedIconEntries_images env specs 1 hdec
  have hgrp := namedIconEntries_groups env specs 1 hdec
  have himg2 : ((namedIconEntries env 1 specs).filter
        (fun e => decide (e.typ = .IconResource))).map (fun e => e.ident) =
      (List.range (totalImages env specs)).map
        (fun (k : Nat) => Identifier.id ((k : Int) + 1)) := by
    rw [himg]
    apply List.map_congr_left
    intro k _
    simp only [Identifier.id.injEq]
    omega
  refine ⟨?_, ?_, himg2, hgrp⟩
  · cases specs with
    | nil => simp [embedIcons]
    | cons spec rest =>
      obtain ⟨icons, hd⟩ := hdec spec (List.mem_cons_self _ _)
      obtain ⟨f, hO, hD⟩ := decoded_eq_some env spec icons hd
      obtain ⟨hv, hid⟩ := hvalid spec (List.mem_cons_self _ _)
      have htot : totalImages env (spec :: rest) =
          icons.Images.length + totalImages env rest := by
        simp [totalImages, hd]
      have hN2 : (icons.Images.length : Int) + (totalImages env rest : Int) ≤ 65535 := by
        rw [htot] at hN
        exact_mod_cast hN
      have hstep := embedIcon_on_fresh env ⟨[]⟩ spec f icons hv (by decide) hadd hO hD
      rw [registerIcon_accept env hacc New spec icons 0 (le_refl 0) (by omega)
        new_exists_iff] at hstep
      simp only [List.nil_append, New] at hstep
      simp only [List.map_cons, embedIcons, hstep]
      rw [namedIcons_on_existing env hacc rest _ icons.Images.length 1
        (fun x hx => hvalid x (List.mem_cons_of_mem _ hx))
        (fun x hx => hdec x (List.mem_cons_of_mem _ hx)) (by omega) (by omega)]
      intro n
      rw [resourceIDExists_append]
      have hkey : specIdentifier spec = .name spec.Name := by
        simp [specIdentifier, hid]
      have hname : decide ((⟨.IconGroupResource, specIdentifier spec,
          .group ⟨assignIDs (0 + 1) icons.Images, icons.descriptor⟩⟩ : Resource).ident =
            Identifier.id n) = false := by
        simp [hkey]
      rw [hname, Bool.or_false]
      have := (addImages_accept env hacc icons.Images New 0 0 (le_refl 0) (by omega)
        new_exists_iff).2 n
      simp only [New, List.nil_append, zero_add] at this
      simpa using this
  · cases specs with
    | nil => simp [embedIcons, namedIconEntries, File.resources, File.Section]
    | cons spec rest =>
      obtain ⟨icons, hd⟩ := hdec spec (List.mem_cons_self _ _)
      obtain ⟨f, hO, hD⟩ := decoded_eq_some env spec icons hd
      obtain ⟨hv, hid⟩ := hvalid spec (List.mem_cons_self _ _)
      have htot : totalImages env (spec :: rest) =
          icons.Images.length + totalImages env rest := by
        simp [totalImages, hd]
      have hN2 : (icons.Images.length : Int) + (totalImages env rest : Int) ≤ 65535 := by
        rw [htot] at hN
        exact_mod_cast hN
      have hstep := embedIcon_on_fresh env ⟨[]⟩ spec f icons hv (by decide) hadd hO hD
      rw [registerIcon_accept env hacc New spec icons 0 (le_refl 0) (by omega)
        new_exists_iff] at hstep
      simp only [List.nil_append, New] at hstep
      have hkey : specIdentifier spec = .name spec.Name := by
        simp [specIdentifier, hid]
      simp only [List.map_cons, embedIcons, hstep]
      rw [namedIcons_on_existing env hacc rest _ icons.Images.length 1
        (fun x hx => hvalid x (List.mem_cons_of_mem _ hx))
        (fun x hx => hdec x (List.mem_cons_of_mem _ hx)) (by omega) (by omega)]
      · rw [resources_single]
        have hidx : (icons.Images.length : Int) + 1 = 1 + (icons.Images.length : Int) := by
          omega
        simp [namedIconEntries, hd, hkey, hidx, List.append_assoc]
      · intro n
        rw [resourceIDExists_append]
        have hname : decide ((⟨.IconGroupResource, specIdentifier spec,
            .group ⟨assignIDs (0 + 1) icons.Images, icons.descriptor⟩⟩ : Resource).ident =
              Identifier.id n) = false := by
          simp [hkey]
        rw [hname, Bool.or_false]
        have := (addImages_accept env hacc icons.Images New 0 0 (le_refl 0) (by omega)
          new_exists_iff).2 n
        simp only [New, List.nil_append, zero_add] at this
        simpa using this

/-- C14, at a concrete input: "MAIN" then "ALT", two images each, give the
image ids 1, 2, 3, 4 and the icon groups "MAIN" and "ALT". -/
theorem embedIcons_named_witness :
    (embedIcons (acceptAll [⟨0, [10]⟩, ⟨0, [20]⟩]) ⟨[]⟩ 0
      [some ⟨0, "MAIN", "a.ico"⟩, some ⟨0, "ALT", "b.ico"⟩]).2 = .ok () ∧
    (embedIcons (acceptAll [⟨0, [10]⟩, ⟨0, [20]⟩]) ⟨[]⟩ 0
      [some ⟨0, "MAIN", "a.ico"⟩, some ⟨0, "ALT", "b.ico"⟩]).1.resources =
      [⟨.IconResource, .id 1, .image ⟨1, [10]⟩⟩,
       ⟨.IconResource, .id 2, .image ⟨2, [20]⟩⟩,
       ⟨.IconGroupResource, .name "MAIN", .group ⟨[⟨1, [10]⟩, ⟨2, [20]⟩], []⟩⟩,
       ⟨.IconResource, .id 3, .image ⟨3, [10]⟩⟩,
       ⟨.IconResource, .id 4, .image ⟨4, [20]⟩⟩,
       ⟨.IconGroupResource, .name "ALT", .group ⟨[⟨3, [10]⟩, ⟨4, [20]⟩], []⟩⟩] :=
  ⟨(embedIcons_named (acceptAll [⟨0, [10]⟩, ⟨0, [20]⟩])
      [⟨0, "MAIN", "a.ico"⟩, ⟨0, "ALT", "b.ico"⟩] (by decide) (fun _ _ => ⟨_, rfl⟩)
      (by decide) rfl (fun _ _ _ => rfl)).1,
   (embedIcons_named (acceptAll [⟨0, [10]⟩, ⟨0, [20]⟩])
      [⟨0, "MAIN", "a.ico"⟩, ⟨0, "ALT", "b.ico"⟩] (by decide) (fun _ _ => ⟨_, rfl⟩)
      (by decide) rfl (fun _ _ _ => rfl)).2.1⟩

/-! ## No rollback -/

theorem preserved_refl (c : File) : Preserved c c := by
  intro k s h
  exact ⟨s, h, List.prefix_refl _⟩

theorem preserved_trans (c c2 c3 : File) (h1 : Preserved c c2) (h2 : Preserved c2 c3) :
    Preserved c c3 := by
  intro k s h
  obtain ⟨s2, hs2, hp2⟩ := h1 k s h
  obtain ⟨s3, hs3, hp3⟩ := h2 k s2 hs2
  exact ⟨s3, hs3, List.IsPrefix.trans hp2 hp3⟩

theorem preserved_append (c : File) (x : CoffSection) :
    Preserved c ⟨c.sections ++ [x]⟩ := by
  intro k s h
  have hlt : k < c.sections.length := by
    by_contra hge
    rw [List.getElem?_eq_none (by omega)] at h
    cases h
  exact ⟨s, by rw [List.getElem?_append_left hlt]; exact h, List.prefix_refl _⟩

theorem preserved_setRsrc (c : File) (r : Nat) (s s1 : Section)
    (hr : c.rsrcAt r = some s) (hp : s.resources <+: s1.resources) :
    Preserved c (c.setRsrc r s1) := by
  intro k s0 h
  have hlt : k < c.sections.length := by
    by_contra hge
    rw [List.getElem?_eq_none (by omega)] at h
    cases h
  by_cases hkr : r = k
  · subst hkr
    have : s0 = s := by
      simp only [File.rsrcAt, h, Option.some.injEq] at hr
      exact hr
    subst this
    exact ⟨s1, by simp [File.setRsrc, hlt], hp⟩
  · exact ⟨s0, by simp [File.setRsrc, List.getElem?_set_ne hkr, h], List.prefix_refl _⟩

/-- The image loop only appends image entries: as many as the index of the
image whose registration failed, all of them when none failed. -/
theorem addImages_shape (env : Env) (imgs : List Image) (r : Section) (i : Nat) :
    ∃ added : List Image,
      (addImages env r i imgs).1.resources = r.resources ++ added.map imageEntry ∧
      added.length ≤ imgs.length ∧
      (∀ e, (addImages env r i imgs).2.2 = .error e →
        ∃ cause, e = .addImage (i + added.length) cause) ∧
      ((addImages env r i imgs).2.2 = .ok () →
        added.length = imgs.length ∧ (addImages env r i imgs).2.1.length = imgs.length) := by
  induction imgs generalizing r i with
  | nil => exact ⟨[], by simp [addImages], by simp, by simp [addImages], by simp [addImages]⟩
  | cons img rest ih =>
    simp only [addImages, Section.AddResourceByID]
    cases hacc : env.addResourceError r .IconResource
        (.id (findPossibleID r.ResourceIDExists 1)) with
    | some msg =>
      exact ⟨[], by simp, by simp, by simp, by simp⟩
    | none =>
      obtain ⟨added, h1, h2, h3, h4⟩ := ih
        ⟨r.resources ++ [⟨.IconResource, .id (findPossibleID r.ResourceIDExists 1),
          .image ⟨findPossibleID r.ResourceIDExists 1, img.data⟩⟩]⟩ (i + 1)
      refine ⟨⟨findPossibleID r.ResourceIDExists 1, img.data⟩ :: added, ?_, ?_, ?_, ?_⟩
      · simp only [h1]
        simp [imageEntry, List.append_assoc]
      · simp only [List.length_cons]
        omega
      · intro e he
        obtain ⟨cause, hc⟩ := h3 e he
        refine ⟨cause, ?_⟩
        rw [hc]
        simp only [List.length_cons]
        congr 1
        omega
      · intro hok
        obtain ⟨h5, h6⟩ := h4 hok
        simp only [List.length_cons]
        exact ⟨by omega, by rw [h6]⟩

theorem addByIdentifier_shape (env : Env) (r : Section) (typ : ResourceType)
    (spec : FileResource) (b : Blob) :
    (∃ cause, addByIdentifier env r typ spec b = (r, .error cause)) ∨
    addByIdentifier env r typ spec b =
      (⟨r.resources ++ [⟨typ, specIdentifier spec, b⟩]⟩, .ok ()) := by
  cases hacc : env.addResourceError r typ (specIdentifier spec) with
  | none => exact Or.inr (addByIdentifier_accept env r typ spec b hacc)
  | some msg =>
    left
    refine ⟨msg, ?_⟩
    unfold addByIdentifier
    unfold specIdentifier at hacc
    by_cases h : spec.ID ≠ 0
    · rw [if_pos h] at hacc ⊢
      simp [Section.AddResourceByID, hacc]
    · rw [if_neg h] at hacc ⊢
      simp [Section.AddResourceByName, hacc]

/-- What the registrations of `EmbedIcon` leave in the container, by outcome:
on a failing image registration the images registered before it, on a failing
group registration all the images, on success the images and the group. -/
theorem registerIcon_shape (env : Env) (r : Section) (icon : FileResource) (icons : Group) :
    ∃ added : List Image, added.length ≤ icons.Images.length ∧
      (((registerIcon env r icon icons).1.resources = r.resources ++ added.map imageEntry ∧
          ∃ cause, (registerIcon env r icon icons).2 =
            .error (.addImage added.length cause)) ∨
       ((registerIcon env r icon icons).1.resources = r.resources ++ added.map imageEntry ∧
          added.length = icons.Images.length ∧
          ∃ cause, (registerIcon env r icon icons).2 = .error (.addGroup cause)) ∨
       (added.length = icons.Images.length ∧
          ∃ g, (registerIcon env r icon icons).1.resources =
              r.resources ++ added.map imageEntry ++
                [⟨.IconGroupResource, specIdentifier icon, .group g⟩] ∧
            (registerIcon env r icon icons).2 = .ok ())) := by
  obtain ⟨added, h1, h2, h3, h4⟩ := addImages_shape env icons.Images r 0
  refine ⟨added, h2, ?_⟩
  unfold registerIcon
  generalize hA : addImages env r 0 icons.Images = A at h1 h3 h4
  obtain ⟨r1, imgs, res⟩ := A
  cases res with
  | error e =>
    left
    obtain ⟨cause, hc⟩ := h3 e rfl
    simp only [Nat.zero_add] at hc
    exact ⟨h1, cause, by simp [hc]⟩
  | ok u =>
    right
    obtain ⟨h5, _⟩ := h4 rfl
    simp only at h1
    rcases addByIdentifier_shape env r1 .IconGroupResource icon
        (.group ⟨imgs, icons.descriptor⟩) with ⟨cause, hg⟩ | hg
    · left
      dsimp only
      rw [hg]
      exact ⟨h1, h5, cause, rfl⟩
    · right
      dsimp only
      rw [hg]
      exact ⟨h5, ⟨imgs, icons.descriptor⟩, by rw [h1], rfl⟩

theorem registerIcon_keeps (env : Env) (r : Section) (icon : FileResource) (icons : Group) :
    r.resources <+: (registerIcon env r icon icons).1.resources := by
  obtain ⟨added, _, h | h | h⟩ := registerIcon_shape env r icon icons
  · rw [h.1]
    exact List.prefix_append _ _
  · rw [h.1]
    exact List.prefix_append _ _
  · obtain ⟨_, g, hg, _⟩ := h
    rw [hg, List.append_assoc]
    exact List.prefix_append _ _

theorem addByIdentifier_keeps (env : Env) (r : Section) (typ : ResourceType)
    (spec : FileResource) (b : Blob) :
    r.resources <+: (addByIdentifier env r typ spec b).1.resources := by
  rcases addByIdentifier_shape env r typ spec b with ⟨cause, h⟩ | h
  · rw [h]
  · rw [h]
    exact List.prefix_append _ _

/-- The object file `EmbedIcon` leaves: the file after the container was found
or created, with at most the registrations of the icon applied to that
container. -/
theorem embedIcon_shape (env : Env) (c : File) (icon : Option FileResource) :
    ∃ c1 : File, (c1 = c ∨ c1 = ⟨c.sections ++ [.rsrc New]⟩) ∧
      ((EmbedIcon env c icon).1 = c1 ∨
        ∃ (r : Nat) (s : Section) (spec : FileResource) (icons : Group),
          c1.rsrcAt r = some s ∧
          (EmbedIcon env c icon).1 = c1.setRsrc r (registerIcon env s spec icons).1) := by
  cases icon with
  | none => exact ⟨c, Or.inl rfl, Or.inl rfl⟩
  | some spec =>
    simp only [EmbedIcon]
    cases hv : spec.Validate with
    | error e => exact ⟨c, Or.inl rfl, Or.inl rfl⟩
    | ok u =>
      dsimp only
      have hshape := getOrCreate_shape env c
      generalize hg : getOrCreateRSRCSection env c = g at hshape
      obtain ⟨c1, res⟩ := g
      refine ⟨c1, hshape.1, ?_⟩
      cases res with
      | error e => exact Or.inl rfl
      | ok r =>
        dsimp only
        cases hO : env.Open spec.Path with
        | error e => exact Or.inl rfl
        | ok f =>
          dsimp only
          cases hD : env.DecodeAll f with
          | error e => exact Or.inl rfl
          | ok icons =>
            dsimp only
            cases hr : c1.rsrcAt r with
            | none => exact Or.inl rfl
            | some s => exact Or.inr ⟨r, s, spec, icons, hr, rfl⟩

/-- The object file `EmbedManifest` leaves. -/
theorem embedManifest_shape (env : Env) (c : File) (m : Option FileResource) :
    ∃ c1 : File, (c1 = c ∨ c1 = ⟨c.sections ++ [.rsrc New]⟩) ∧
      ((EmbedManifest env c m).1 = c1 ∨
        ∃ (r : Nat) (s : Section) (spec : FileResource) (b : Blob),
          c1.rsrcAt r = some s ∧
          (EmbedManifest env c m).1 =
            c1.setRsrc r (addByIdentifier env s .ManifestResource spec b).1) := by
  cases m with
  | none => exact ⟨c, Or.inl rfl, Or.inl rfl⟩
  | some spec =>
    simp only [EmbedManifest]
    cases hv : spec.Validate with
    | error e => exact ⟨c, Or.inl rfl, Or.inl rfl⟩
    | ok u =>
      dsimp only
      have hshape := getOrCreate_shape env c
      generalize hg : getOrCreateRSRCSection env c = g at hshape
      obtain ⟨c1, res⟩ := g
      refine ⟨c1, hshape.1, ?_⟩
      cases res with
      | error e => exact Or.inl rfl
      | ok r =>
        dsimp only
        cases hO : env.Open spec.Path with
        | error e => exact Or.inl rfl
        | ok f =>
          dsimp only
          cases hB : env.NewBlob f with
          | error e => exact Or.inl rfl
          | ok b =>
            dsimp only
            cases hr : c1.rsrcAt r with
            | none => exact Or.inl rfl
            | some s =>
              refine Or.inr ⟨r, s, spec, b, hr, ?_⟩
              dsimp only
              rcases addByIdentifier_shape env s .ManifestResource spec b with ⟨cause, h⟩ | h
              · rw [h]
              · rw [h]

theorem embedIcon_preserved (env : Env) (c : File) (icon : Option FileResource) :
    Preserved c (EmbedIcon env c icon).1 := by
  obtain ⟨c1, hc1, h⟩ := embedIcon_shape env c icon
  have h01 : Preserved c c1 := by
    rcases hc1 with rfl | rfl
    · exact preserved_refl _
    · exact preserved_append _ _
  rcases h with h | ⟨r, s, spec, icons, hr, h⟩
  · rw [h]
    exact h01
  · rw [h]
    exact preserved_trans _ _ _ h01
      (preserved_setRsrc c1 r s _ hr (registerIcon_keeps env s spec icons))

theorem embedManifest_preserved (env : Env) (c : File) (m : Option FileResource) :
    Preserved c (EmbedManifest env c m).1 := by
  obtain ⟨c1, hc1, h⟩ := embedManifest_shape env c m
  have h01 : Preserved c c1 := by
    rcases hc1 with rfl | rfl
    · exact preserved_refl _
    · exact preserved_append _ _
  rcases h with h | ⟨r, s, spec, b, hr, h⟩
  · rw [h]
    exact h01
  · rw [h]
    exact preserved_trans _ _ _ h01
      (preserved_setRsrc c1 r s _ hr (addByIdentifier_keeps env s _ spec b))

theorem embedIcons_preserved (env : Env) (icons : List (Option FileResource)) (c : File)
    (i : Nat) : Preserved c (embedIcons env c i icons).1 := by
  induction icons generalizing c i with
  | nil => exact preserved_refl _
  | cons icon rest ih =>
    have h1 := embedIcon_preserved env c icon
    simp only [embedIcons]
    generalize EmbedIcon env c icon = g at h1
    obtain ⟨c1, res⟩ := g
    cases res with
    | ok u => exact preserved_trans _ _ _ h1 (ih c1 (i + 1))
    | error e => exact h1
    | panic => exact h1

/-- What the run over the first `j` icons left in the object file is still
there after the run over all icons. -/
theorem embedIcons_preserved_take (env : Env) (icons : List (Option FileResource))
    (c : File) (i j : Nat) :
    Preserved (embedIcons env c i (icons.take j)).1 (embedIcons env c i icons).1 := by
  induction icons generalizing c i j with
  | nil => simp only [List.take_nil]; exact preserved_refl _
  | cons icon rest ih =>
    cases j with
    | zero =>
      simp only [List.take_zero]
      exact embedIcons_preserved env (icon :: rest) c i
    | succ j =>
      simp only [List.take_succ_cons, embedIcons]
      generalize EmbedIcon env c icon = g
      obtain ⟨c1, res⟩ := g
      cases res with
      | ok u => exact ih c1 (i + 1) j
      | error e => exact preserved_refl _
      | panic => exact preserved_refl _

/-- A failure of the run over the icons named with the index `i`: the icons
before the failing one were embedded with success, and the object file is the
one `EmbedIcon` left for the failing icon, applied to the file the icons before
it left. -/
theorem embedIcons_error (env : Env) (icons : List (Option FileResource)) (c : File)
    (i0 i : Nat) (e : EmbedError) (h : (embedIcons env c i0 icons).2 = .error (.icon i e)) :
    ∃ k : Nat, i = i0 + k ∧ (embedIcons env c i0 (icons.take k)).2 = .ok () ∧
      ∃ icon, icons[k]? = some icon ∧
        (embedIcons env c i0 icons).1 =
          (EmbedIcon env (embedIcons env c i0 (icons.take k)).1 icon).1 ∧
        (EmbedIcon env (embedIcons env c i0 (icons.take k)).1 icon).2 = .error e := by
  induction icons generalizing c i0 with
  | nil => simp [embedIcons] at h
  | cons icon rest ih =>
    simp only [embedIcons] at h ⊢
    cases hg : EmbedIcon env c icon with
    | mk c1 res =>
      rw [hg] at h
      cases res with
      | ok u =>
        dsimp only at h
        obtain ⟨k, hk, hok, icon2, hi2, hfin, herr⟩ := ih c1 (i0 + 1) h
        refine ⟨k + 1, by omega, ?_, icon2, by simpa using hi2, ?_, ?_⟩
        · simp only [List.take_succ_cons, embedIcons, hg]
          exact hok
        · simp only [List.take_succ_cons, embedIcons, hg]
          exact hfin
        · simp only [List.take_succ_cons, embedIcons, hg]
          exact herr
      | error e2 =>
        dsimp only at h
        simp only [Result.error.injEq, RunError.icon.injEq] at h
        obtain ⟨h1, h2⟩ := h
        subst h1
        subst h2
        refine ⟨0, by omega, by simp [embedIcons], icon, by simp, ?_, ?_⟩
        · simp [embedIcons, hg]
        · simp [embedIcons, hg]
      | panic => simp at h

theorem embedVersionInfos_preserved {V : Type}
    (embedVI : File → Option V → File × Result String Unit)
    (hVI : ∀ (c : File) (v : Option V), Preserved c (embedVI c v).1)
    (vs : List (Option V)) (c : File) (i : Nat) :
    Preserved c (embedVersionInfos embedVI c i vs).1 := by
  induction vs generalizing c i with
  | nil => exact preserved_refl _
  | cons v rest ih =>
    have h1 := hVI c v
    simp only [embedVersionInfos]
    generalize embedVI c v = g at h1
    obtain ⟨c1, res⟩ := g
    cases res with
    | ok u => exact preserved_trans _ _ _ h1 (ih c1 (i + 1))
    | error e => exact h1
    | panic => exact h1

theorem embedManifest_step_preserved (env : Env) (c : File) (m : Option FileResource) :
    Preserved c (embedManifest env c m).1 := by
  cases m with
  | none => exact preserved_refl _
  | some spec =>
    have h1 := embedManifest_preserved env c (some spec)
    simp only [embedManifest]
    generalize EmbedManifest env c (some spec) = g at h1
    obtain ⟨c1, res⟩ := g
    cases res <;> exact h1

theorem mainEmbed_preserved {V : Type} (env : Env)
    (embedVI : File → Option V → File × Result String Unit)
    (hVI : ∀ (c : File) (v : Option V), Preserved c (embedVI c v).1)
    (c : File) (cfg : Config V) :
    Preserved (embedIcons env c 0 cfg.Icons).1 (mainEmbed env embedVI c cfg).1 := by
  simp only [mainEmbed]
  generalize embedIcons env c 0 cfg.Icons = g
  obtain ⟨c1, res⟩ := g
  cases res with
  | error e => exact preserved_refl _
  | panic => exact preserved_refl _
  | ok u =>
    dsimp only
    have h1 := embedManifest_step_preserved env c1 cfg.Manifest
    generalize embedManifest env c1 cfg.Manifest = g2 at h1
    obtain ⟨c2, res2⟩ := g2
    cases res2 with
    | error e => exact h1
    | panic => exact h1
    | ok u2 =>
      exact preserved_trans _ _ _ h1
        (embedVersionInfos_preserved embedVI hVI cfg.VersionInfos c2 0)

/-- The image loop, in detail: the entries it appends are images that carry,
in order, the data of the first images of the list; on a failure fewer than
all, on success all. -/
theorem addImages_added (env : Env) (imgs : List Image) (r : Section) (i : Nat) :
    ∃ added : List Image,
      (addImages env r i imgs).1.resources = r.resources ++ added.map imageEntry ∧
      added.map (fun a => a.data) = (imgs.take added.length).map (fun a => a.data) ∧
      (∀ e, (addImages env r i imgs).2.2 = .error e →
        added.length < imgs.length ∧ ∃ cause, e = .addImage (i + added.length) cause) ∧
      ((addImages env r i imgs).2.2 = .ok () → added.length = imgs.length) := by
  induction imgs generalizing r i with
  | nil => exact ⟨[], by simp [addImages], by simp, by simp [addImages], by simp [addImages]⟩
  | cons img rest ih =>
    simp only [addImages, Section.AddResourceByID]
    cases hacc : env.addResourceError r .IconResource
        (.id (findPossibleID r.ResourceIDExists 1)) with
    | some msg =>
      exact ⟨[], by simp, by simp, by simp, by simp⟩
    | none =>
      obtain ⟨added, h1, h2, h3, h4⟩ := ih
        ⟨r.resources ++ [⟨.IconResource, .id (findPossibleID r.ResourceIDExists 1),
          .image ⟨findPossibleID r.ResourceIDExists 1, img.data⟩⟩]⟩ (i + 1)
      refine ⟨⟨findPossibleID r.ResourceIDExists 1, img.data⟩ :: added, ?_, ?_, ?_, ?_⟩
      · simp only [h1]
        simp [imageEntry, List.append_assoc]
      · simp only [List.length_cons, List.take_succ_cons, List.map_cons, h2]
      · intro e he
        obtain ⟨hlt, cause, hc⟩ := h3 e he
        refine ⟨by simp only [List.length_cons]; omega, cause, ?_⟩
        rw [hc]
        simp only [List.length_cons]
        congr 1
        omega
      · intro hok
        have h5 := h4 hok
        simp only [List.length_cons]
        omega

/-- What a failing `registerIcon` leaves in the container: on a failing image
registration the images registered before it, on a failing group registration
all the images of the icon. -/
theorem registerIcon_failure (env : Env) (r : Section) (icon : FileResource)
    (icons : Group) (e : EmbedError) (h : (registerIcon env r icon icons).2 = .error e) :
    ∃ added : List Image,
      (registerIcon env r icon icons).1.resources = r.resources ++ added.map imageEntry ∧
      added.map (fun a => a.data) =
        (icons.Images.take added.length).map (fun a => a.data) ∧
      ((added.length < icons.Images.length ∧ ∃ cause, e = .addImage added.length cause) ∨
       (added.length = icons.Images.length ∧ ∃ cause, e = .addGroup cause)) := by
  obtain ⟨added, h1, h2, h3, h4⟩ := addImages_added env icons.Images r 0
  refine ⟨added, ?_, h2, ?_⟩
  · unfold registerIcon at h ⊢
    generalize hA : addImages env r 0 icons.Images = A at h1 h h3 h4
    obtain ⟨r1, imgs, res⟩ := A
    cases res with
    | error e1 => exact h1
    | ok u =>
      dsimp only at h ⊢
      rcases addByIdentifier_shape env r1 .IconGroupResource icon
          (.group ⟨imgs, icons.descriptor⟩) with ⟨cause, hg⟩ | hg
      · rw [hg]
        exact h1
      · rw [hg] at h
        cases h
  · unfold registerIcon at h
    generalize hA : addImages env r 0 icons.Images = A at h1 h h3 h4
    obtain ⟨r1, imgs, res⟩ := A
    cases res with
    | error e1 =>
      left
      obtain ⟨hlt, cause, hc⟩ := h3 e1 rfl
      simp only [Nat.zero_add] at hc
      simp only [Result.error.injEq] at h
      exact ⟨hlt, cause, by rw [← h, hc]⟩
    | ok u =>
      right
      dsimp only at h
      refine ⟨h4 rfl, ?_⟩
      rcases addByIdentifier_shape env r1 .IconGroupResource icon
          (.group ⟨imgs, icons.descriptor⟩) with ⟨cause, hg⟩ | hg
      · rw [hg] at h
        simp only [Result.error.injEq] at h
        exact ⟨cause, h.symm⟩
      · rw [hg] at h
        cases h

theorem rsrcAt_setRsrc (c : File) (r : Nat) (s s1 : Section) (h : c.rsrcAt r = some s) :
    (c.setRsrc r s1).rsrcAt r = some s1 := by
  have hlt : r < c.sections.length := by
    by_contra hge
    unfold File.rsrcAt at h
    rw [List.getElem?_eq_none (by omega)] at h
    cases h
  simp [File.rsrcAt, File.setRsrc, hlt]

/-- The object file a failing registration of `EmbedIcon` leaves: the container
the icon was to go to holds what it held before the call and, after that, the
images of the icon that were registered before the failing step. -/
theorem embedIcon_failure (env : Env) (c : File) (icon : FileResource) (e : EmbedError)
    (h : (EmbedIcon env c (some icon)).2 = .error e)
    (hk : (∃ j cause, e = .addImage j cause) ∨ (∃ cause, e = .addGroup cause)) :
    ∃ (c1 : File) (r : Nat) (s : Section) (icons : Group) (added : List Image),
      getOrCreateRSRCSection env c = (c1, .ok r) ∧ c1.rsrcAt r = some s ∧
      decoded env icon = some icons ∧
      added.map (fun a => a.data) =
        (icons.Images.take added.length).map (fun a => a.data) ∧
      ((added.length < icons.Images.length ∧ ∃ cause, e = .addImage added.length cause) ∨
       (added.length = icons.Images.length ∧ ∃ cause, e = .addGroup cause)) ∧
      (EmbedIcon env c (some icon)).1 =
        c1.setRsrc r ⟨s.resources ++ added.map imageEntry⟩ := by
  revert h
  simp only [EmbedIcon]
  cases hv : icon.Validate with
  | error e1 =>
    intro h
    rcases hk with ⟨j, cause, rfl⟩ | ⟨cause, rfl⟩ <;> simp at h
  | ok u =>
    dsimp only
    generalize hg : getOrCreateRSRCSection env c = g
    obtain ⟨c1, res⟩ := g
    cases res with
    | error e1 =>
      intro h
      rcases hk with ⟨j, cause, rfl⟩ | ⟨cause, rfl⟩ <;> simp at h
    | ok r =>
      dsimp only
      cases hO : env.Open icon.Path with
      | error e1 =>
        intro h
        rcases hk with ⟨j, cause, rfl⟩ | ⟨cause, rfl⟩ <;> simp at h
      | ok f =>
        dsimp only
        cases hD : env.DecodeAll f with
        | error e1 =>
          intro h
          rcases hk with ⟨j, cause, rfl⟩ | ⟨cause, rfl⟩ <;> simp at h
        | ok icons =>
          dsimp only
          cases hr : c1.rsrcAt r with
          | none =>
            intro h
            simp at h
          | some s =>
            intro h
            have h0 : (registerIcon env s icon icons).2 = .error e := h
            obtain ⟨added, h1, h2, h3⟩ := registerIcon_failure env s icon icons e h0
            refine ⟨c1, r, s, icons, added, rfl, hr, ?_, h2, h3, ?_⟩
            · simp [decoded, hO, hD]
            · show c1.setRsrc r (registerIcon env s icon icons).1 = _
              generalize (registerIcon env s icon icons).1 = s1 at h1
              obtain ⟨l⟩ := s1
              simp only at h1
              rw [h1]

/-- What the run over the first `j` version infos left in the object file is
still there after the run over all of them. -/
theorem embedVersionInfos_preserved_take {V : Type}
    (embedVI : File → Option V → File × Result String Unit)
    (hVI : ∀ (c : File) (v : Option V), Preserved c (embedVI c v).1)
    (vs : List (Option V)) (c : File) (i j : Nat) :
    Preserved (embedVersionInfos embedVI c i (vs.take j)).1
      (embedVersionInfos embedVI c i vs).1 := by
  induction vs generalizing c i j with
  | nil => simp only [List.take_nil]; exact preserved_refl _
  | cons v rest ih =>
    cases j with
    | zero =>
      simp only [List.take_zero]
      exact embedVersionInfos_preserved embedVI hVI (v :: rest) c i
    | succ j =>
      simp only [List.take_succ_cons, embedVersionInfos]
      generalize embedVI c v = g
      obtain ⟨c1, res⟩ := g
      cases res with
      | ok u => exact ih c1 (i + 1) j
      | error e => exact preserved_refl _
      | panic => exact preserved_refl _

theorem embedVersionInfos_error_kind {V : Type}
    (embedVI : File → Option V → File × Result String Unit)
    (vs : List (Option V)) (c : File) (i0 i : Nat) (e : EmbedError) :
    (embedVersionInfos embedVI c i0 vs).2 ≠ .error (.icon i e) := by
  induction vs generalizing c i0 with
  | nil => simp [embedVersionInfos]
  | cons v rest ih =>
    simp only [embedVersionInfos]
    generalize embedVI c v = g
    obtain ⟨c1, res⟩ := g
    cases res with
    | ok u => exact ih c1 (i0 + 1)
    | error e1 => simp
    | panic => simp

theorem embedManifest_error_kind (env : Env) (c : File) (m : Option FileResource)
    (i : Nat) (e : EmbedError) : (embedManifest env c m).2 ≠ .error (.icon i e) := by
  cases m with
  | none => simp [embedManifest]
  | some spec =>
    simp only [embedManifest]
    generalize EmbedManifest env c (some spec) = g
    obtain ⟨c1, res⟩ := g
    cases res <;> simp

/-- The stages of the run of `main` after the icons: what the manifest step
left in the object file, and what each version info left, is still there at
the end of the run or at its failure. -/
theorem mainEmbed_stages {V : Type} (env : Env)
    (embedVI : File → Option V → File × Result String Unit)
    (hVI : ∀ (c : File) (v : Option V), Preserved c (embedVI c v).1)
    (c : File) (cfg : Config V) (hI : (embedIcons env c 0 cfg.Icons).2 = .ok ()) :
    Preserved (embedManifest env (embedIcons env c 0 cfg.Icons).1 cfg.Manifest).1
      (mainEmbed env embedVI c cfg).1 ∧
    ((embedManifest env (embedIcons env c 0 cfg.Icons).1 cfg.Manifest).2 = .ok () →
      ∀ j : Nat, Preserved
        (embedVersionInfos embedVI
          (embedManifest env (embedIcons env c 0 cfg.Icons).1 cfg.Manifest).1 0
          (cfg.VersionInfos.take j)).1
        (mainEmbed env embedVI c cfg).1) := by
  simp only [mainEmbed]
  generalize embedIcons env c 0 cfg.Icons = g at hI
  obtain ⟨c1, res⟩ := g
  cases res with
  | error e => simp at hI
  | panic => simp at hI
  | ok u =>
    dsimp only
    generalize embedManifest env c1 cfg.Manifest = g2
    obtain ⟨c2, res2⟩ := g2
    cases res2 with
    | error e => exact ⟨preserved_refl _, fun h => by simp at h⟩
    | panic => exact ⟨preserved_refl _, fun h => by simp at h⟩
    | ok u2 =>
      exact ⟨embedVersionInfos_preserved embedVI hVI cfg.VersionInfos c2 0,
        fun _ j => embedVersionInfos_preserved_take embedVI hVI cfg.VersionInfos c2 0 j⟩

/-- A failure of the run of `main` reported for an icon is the failure of the
run over the icons, and the object file is the one that run left. -/
theorem mainEmbed_icon_error {V : Type} (env : Env)
    (embedVI : File → Option V → File × Result String Unit)
    (c : File) (cfg : Config V) (i : Nat) (e : EmbedError)
    (h : (mainEmbed env embedVI c cfg).2 = .error (.icon i e)) :
    (embedIcons env c 0 cfg.Icons).2 = .error (.icon i e) ∧
    (mainEmbed env embedVI c cfg).1 = (embedIcons env c 0 cfg.Icons).1 := by
  revert h
  simp only [mainEmbed]
  generalize embedIcons env c 0 cfg.Icons = g
  obtain ⟨c1, res⟩ := g
  cases res with
  | error e1 => exact fun h => ⟨h, rfl⟩
  | panic => exact fun h => ⟨h, rfl⟩
  | ok u =>
    dsimp only
    have hM := embedManifest_error_kind env c1 cfg.Manifest i e
    generalize embedManifest env c1 cfg.Manifest = g2 at hM
    obtain ⟨c2, res2⟩ := g2
    cases res2 with
    | error e1 => exact fun h => absurd h hM
    | panic => exact fun h => absurd h hM
    | ok u2 =>
      exact fun h => absurd h (embedVersionInfos_error_kind embedVI cfg.VersionInfos c2 0 i e)

/-- A concrete case: the container holds a manifest under the id 1 and
rejects icon groups; the failing `EmbedIcon` leaves the manifest and the two
images, registered under the ids 2 and 3. -/
theorem embedIcon_rejected_group :
    EmbedIcon (rejectGroups [⟨0, [10]⟩, ⟨0, [20]⟩])
        ⟨[.rsrc ⟨[⟨.ManifestResource, .id 1, .raw []⟩]⟩]⟩ (some ⟨0, "MAIN", "a.ico"⟩) =
      (⟨[.rsrc ⟨[⟨.ManifestResource, .id 1, .raw []⟩,
          ⟨.IconResource, .id 2, .image ⟨2, [10]⟩⟩,
          ⟨.IconResource, .id 3, .image ⟨3, [20]⟩⟩]⟩]⟩, .error (.addGroup "rejected")) := by
  have h1 : findPossibleID (Section.ResourceIDExists
      ⟨[⟨.ManifestResource, .id 1, .raw []⟩]⟩) 1 = 2 := by
    rw [findPossibleID_unfold, findPossibleID_unfold]
    simp [Section.ResourceIDExists]
  have h2 : findPossibleID (Section.ResourceIDExists
      ⟨[⟨.ManifestResource, .id 1, .raw []⟩,
        ⟨.IconResource, .id 2, .image ⟨2, [10]⟩⟩]⟩) 1 = 3 := by
    rw [findPossibleID_unfold, findPossibleID_unfold, findPossibleID_unfold]
    simp [Section.ResourceIDExists]
  simp [EmbedIcon, FileResource.Validate, getOrCreateRSRCSection, File.Section,
    CoffSection.Name, rejectGroups, File.rsrcAt, File.setRsrc, registerIcon, addImages,
    Section.AddResourceByID, Section.AddResourceByName, addByIdentifier, h1, h2]

/-- A concrete case: a run of `main` with a manifest and one version info whose
embedding fails; the manifest registered before the failure is in the object
file the run leaves. -/
theorem mainEmbed_failed_versionInfo :
    mainEmbed (acceptAll []) (fun c (_ : Option Unit) => (c, .error "bad")) ⟨[]⟩
        ⟨[], some ⟨1, "", "app.manifest"⟩, [none]⟩ =
      (⟨[.rsrc ⟨[⟨.ManifestResource, .id 1, .raw []⟩]⟩]⟩, .error (.versionInfo 0 "bad")) := by
  simp [mainEmbed, embedIcons, embedManifest, embedVersionInfos, EmbedManifest,
    FileResource.Validate, getOrCreateRSRCSection, File.Section, File.AddSection, New,
    acceptAll, File.rsrcAt, File.setRsrc, Section.AddResourceByID,
    Section.AddResourceByName, addByIdentifier]

/-- C16: there is no rollback.  Whatever the outcome of `EmbedIcon` or
`EmbedManifest`, every container of the object file is still there afterwards
with the entries it had as the first of its entries.  When `EmbedIcon` fails at
the registration of image `j` or of the group, the object file it leaves is the
file after the container was found or created, with that container holding
what it held followed by the images registered before the failing step: the
first `j` images of the icon, or all of them when the group failed.  In the run
of `main` over icons, manifest and version infos, what the first `j` icons
left, what all the icons left, what the manifest step left and what the first
`j` version infos left is still in the object file at the end or at the
failure, provided the version-info embedder, which is outside the embedded
files, removes nothing.  A failure reported for icon `i` comes after the icons
before `i` were embedded with success, and the object file of the run is the
one `EmbedIcon` left for icon `i`. -/
theorem no_rollback {V : Type} (env : Env) :
    (∀ (c : File) (icon : Option FileResource), Preserved c (EmbedIcon env c icon).1) ∧
    (∀ (c : File) (m : Option FileResource), Preserved c (EmbedManifest env c m).1) ∧
    (∀ (c : File) (icon : FileResource) (e : EmbedError),
      (EmbedIcon env c (some icon)).2 = .error e →
      ((∃ j cause, e = .addImage j cause) ∨ (∃ cause, e = .addGroup cause)) →
      ∃ (c1 : File) (r : Nat) (s : Section) (icons : Group) (added : List Image),
        getOrCreateRSRCSection env c = (c1, .ok r) ∧ c1.rsrcAt r = some s ∧
        decoded env icon = some icons ∧
        added.map (fun a => a.data) =
          (icons.Images.take added.length).map (fun a => a.data) ∧
        ((added.length < icons.Images.length ∧
            ∃ cause, e = .addImage added.length cause) ∨
         (added.length = icons.Images.length ∧ ∃ cause, e = .addGroup cause)) ∧
        (EmbedIcon env c (some icon)).1 =
          c1.setRsrc r ⟨s.resources ++ added.map imageEntry⟩ ∧
        (EmbedIcon env c (some icon)).1.rsrcAt r =
          some ⟨s.resources ++ added.map imageEntry⟩) ∧
    (∀ (r : Section) (icon : FileResource) (icons : Group) (j : Nat) (cause : String),
      (registerIcon env r icon icons).2 = .error (.addImage j cause) →
      ∃ added : List Image, added.length = j ∧
        (registerIcon env r icon icons).1.resources = r.resources ++ added.map imageEntry) ∧
    (∀ (r : Section) (icon : FileResource) (icons : Group) (cause : String),
      (registerIcon env r icon icons).2 = .error (.addGroup cause) →
      ∃ added : List Image, added.length = icons.Images.length ∧
        (registerIcon env r icon icons).1.resources = r.resources ++ added.map imageEntry) ∧
    (∀ (embedVI : File → Option V → File × Result String Unit),
      (∀ (c : File) (v : Option V), Preserved c (embedVI c v).1) →
      ∀ (c : File) (cfg : Config V),
        (∀ j : Nat,
          Preserved (embedIcons env c 0 (cfg.Icons.take j)).1
            (mainEmbed env embedVI c cfg).1) ∧
        Preserved (embedIcons env c 0 cfg.Icons).1 (mainEmbed env embedVI c cfg).1 ∧
        ((embedIcons env c 0 cfg.Icons).2 = .ok () →
          Preserved (embedManifest env (embedIcons env c 0 cfg.Icons).1 cfg.Manifest).1
            (mainEmbed env embedVI c cfg).1 ∧
          ((embedManifest env (embedIcons env c 0 cfg.Icons).1 cfg.Manifest).2 = .ok () →
            ∀ j : Nat, Preserved
              (embedVersionInfos embedVI
                (embedManifest env (embedIcons env c 0 cfg.Icons).1 cfg.Manifest).1 0
                (cfg.VersionInfos.take j)).1
              (mainEmbed env embedVI c cfg).1))) ∧
    (∀ (c : File) (icons : List (Option FileResource)) (i : Nat) (e : EmbedError),
      (embedIcons env c 0 icons).2 = .error (.icon i e) →
      (embedIcons env c 0 (icons.take i)).2 = .ok () ∧
      ∃ icon, icons[i]? = some icon ∧
        (embedIcons env c 0 icons).1 =
          (EmbedIcon env (embedIcons env c 0 (icons.take i)).1 icon).1 ∧
        (EmbedIcon env (embedIcons env c 0 (icons.take i)).1 icon).2 = .error e) ∧
    (∀ (embedVI : File → Option V → File × Result String Unit) (c : File) (cfg : Config V)
      (i : Nat) (e : EmbedError),
      (mainEmbed env embedVI c cfg).2 = .error (.icon i e) →
      (embedIcons env c 0 cfg.Icons).2 = .error (.icon i e) ∧
      (mainEmbed env embedVI c cfg).1 = (embedIcons env c 0 cfg.Icons).1) := by
  refine ⟨embedIcon_preserved env, embedManifest_preserved env, ?_, ?_, ?_, ?_, ?_, ?_⟩
  · intro c icon e h hk
    obtain ⟨c1, r, s, icons, added, h1, h2, h3, h4, h5, h6⟩ :=
      embedIcon_failure env c icon e h hk
    refine ⟨c1, r, s, icons, added, h1, h2, h3, h4, h5, h6, ?_⟩
    rw [h6]
    exact rsrcAt_setRsrc c1 r s _ h2
  · intro r icon icons j cause h
    obtain ⟨added, _, hs | hs | hs⟩ := registerIcon_shape env r icon icons
    · obtain ⟨h1, cause2, h2⟩ := hs
      rw [h2] at h
      simp only [Result.error.injEq, EmbedError.addImage.injEq] at h
      exact ⟨added, h.1, h1⟩
    · obtain ⟨_, _, cause2, h2⟩ := hs
      rw [h2] at h
      simp at h
    · obtain ⟨_, g, _, h2⟩ := hs
      rw [h2] at h
      simp at h
  · intro r icon icons cause h
    obtain ⟨added, _, hs | hs | hs⟩ := registerIcon_shape env r icon icons
    · obtain ⟨_, cause2, h2⟩ := hs
      rw [h2] at h
      simp at h
    · obtain ⟨h1, hlen, _⟩ := hs
      exact ⟨added, hlen, h1⟩
    · obtain ⟨_, g, _, h2⟩ := hs
      rw [h2] at h
      simp at h
  · intro embedVI hVI c cfg
    refine ⟨fun j => ?_, mainEmbed_preserved env embedVI hVI c cfg,
      fun hI => mainEmbed_stages env embedVI hVI c cfg hI⟩
    exact preserved_trans _ _ _ (embedIcons_preserved_take env cfg.Icons c 0 j)
      (mainEmbed_preserved env embedVI hVI c cfg)
  · intro c icons i e h
    obtain ⟨k, hk, hok, icon, hi, hfin, herr⟩ := embedIcons_error env icons c 0 i e h
    have : k = i := by omega
    subst this
    exact ⟨hok, icon, hi, hfin, herr⟩
  · intro embedVI c cfg i e h
    exact mainEmbed_icon_error env embedVI c cfg i e h

/-- C16, at a concrete input: a container that holds a manifest under the id 1
and rejects icon groups.  `EmbedIcon` fails at the group, and the file it
leaves holds what the container held followed by the images of the icon. -/
theorem no_rollback_witness :
    (EmbedIcon (rejectGroups [⟨0, [10]⟩, ⟨0, [20]⟩])
        ⟨[.rsrc ⟨[⟨.ManifestResource, .id 1, .raw []⟩]⟩]⟩
        (some ⟨0, "MAIN", "a.ico"⟩)).2 = .error (.addGroup "rejected") ∧
    ((∃ j cause, EmbedError.addGroup "rejected" = .addImage j cause) ∨
      (∃ cause, EmbedError.addGroup "rejected" = .addGroup cause)) ∧
    ∃ (c1 : File) (r : Nat) (s : Section) (icons : Group) (added : List Image),
      getOrCreateRSRCSection (rejectGroups [⟨0, [10]⟩, ⟨0, [20]⟩])
        ⟨[.rsrc ⟨[⟨.ManifestResource, .id 1, .raw []⟩]⟩]⟩ = (c1, .ok r) ∧
      c1.rsrcAt r = some s ∧
      decoded (rejectGroups [⟨0, [10]⟩, ⟨0, [20]⟩]) ⟨0, "MAIN", "a.ico"⟩ = some icons ∧
      added.map (fun a => a.data) =
        (icons.Images.take added.length).map (fun a => a.data) ∧
      ((added.length < icons.Images.length ∧
          ∃ cause, EmbedError.addGroup "rejected" = .addImage added.length cause) ∨
       (added.length = icons.Images.length ∧
          ∃ cause, EmbedError.addGroup "rejected" = .addGroup cause)) ∧
      (EmbedIcon (rejectGroups [⟨0, [10]⟩, ⟨0, [20]⟩])
          ⟨[.rsrc ⟨[⟨.ManifestResource, .id 1, .raw []⟩]⟩]⟩
          (some ⟨0, "MAIN", "a.ico"⟩)).1 =
        c1.setRsrc r ⟨s.resources ++ added.map imageEntry⟩ ∧
      (EmbedIcon (rejectGroups [⟨0, [10]⟩, ⟨0, [20]⟩])
          ⟨[.rsrc ⟨[⟨.ManifestResource, .id 1, .raw []⟩]⟩]⟩
          (some ⟨0, "MAIN", "a.ico"⟩)).1.rsrcAt r =
        some ⟨s.resources ++ added.map imageEntry⟩ :=
  ⟨congrArg Prod.snd embedIcon_rejected_group, Or.inr ⟨"rejected", rfl⟩,
    (@no_rollback Unit (rejectGroups [⟨0, [10]⟩, ⟨0, [20]⟩])).2.2.1
      ⟨[.rsrc ⟨[⟨.ManifestResource, .id 1, .raw []⟩]⟩]⟩ ⟨0, "MAIN", "a.ico"⟩
      (.addGroup "rejected") (congrArg Prod.snd embedIcon_rejected_group)
      (Or.inr ⟨"rejected", rfl⟩)⟩

/-! ## Freshness of the ids given to images -/

theorem resourceIDExists_iff (l : List Resource) (n : Int) :
    Section.ResourceIDExists ⟨l⟩ n = true ↔ ∃ e ∈ l, e.ident = .id n := by
  simp [Section.ResourceIDExists]

/-- A container with fewer than 65535 entries has a free id between 1 and
65535. -/
theorem exists_free_id (l : List Resource) (h : l.length < 65535) :
    ∃ n : Int, 1 ≤ n ∧ n ≤ 65535 ∧ Section.ResourceIDExists ⟨l⟩ n = false := by
  by_contra hcon
  push_neg at hcon
  have hsub : Finset.Icc (1 : Int) 65535 ⊆
      (l.map (fun e => match e.ident with
        | .id n => n
        | .name _ => 0)).toFinset := by
    intro n hn
    rw [Finset.mem_Icc] at hn
    have h1 := hcon n hn.1 hn.2
    simp only [ne_eq, Bool.not_eq_false] at h1
    obtain ⟨e, he, hid⟩ := (resourceIDExists_iff l n).1 h1
    rw [List.mem_toFinset, List.mem_map]
    exact ⟨e, he, by rw [hid]⟩
  have h1 := Finset.card_le_card hsub
  have h2 := List.toFinset_card_le (l.map (fun e => match e.ident with
    | .id n => n
    | .name _ => 0))
  rw [Int.card_Icc] at h1
  rw [List.length_map] at h2
  have h3 : ((65535 : Int) + 1 - 1).toNat = 65535 := by decide
  omega

theorem assignedFree_nil : AssignedFree [] := by
  intro k e hk
  simp at hk

theorem assignedFree_append (l : List Resource) (e : Resource) (h : AssignedFree l)
    (he : e.typ = .IconResource → ∀ n : Int, e.ident = .id n →
      (∃ m : Int, 1 ≤ m ∧ m ≤ 65535 ∧ Section.ResourceIDExists ⟨l⟩ m = false) →
      Section.ResourceIDExists ⟨l⟩ n = false) :
    AssignedFree (l ++ [e]) := by
  intro k e2 hk ht n hid hfree
  rcases Nat.lt_or_ge k l.length with hlt | hge
  · have h1 : (l ++ [e])[k]? = l[k]? := List.getElem?_append_left hlt
    have h2 : (l ++ [e]).take k = l.take k :=
      List.take_append_of_le_length (by omega)
    rw [h2] at hfree ⊢
    rw [h1] at hk
    exact h k e2 hk ht n hid hfree
  · have h1 : (l ++ [e])[k]? = [e][k - l.length]? := List.getElem?_append_right hge
    rw [h1] at hk
    cases hm : k - l.length with
    | zero =>
      rw [hm] at hk
      simp only [List.getElem?_cons_zero, Option.some.injEq] at hk
      subst hk
      have hkl : k = l.length := by omega
      subst hkl
      have h2 : (l ++ [e]).take l.length = l := by simp
      rw [h2] at hfree ⊢
      exact he ht n hid hfree
    | succ m =>
      rw [hm] at hk
      simp at hk

/-- With at most 65535 entries, images whose ids were free when assigned have
ids that no earlier entry has. -/
theorem assignedFree_fresh (l : List Resource) (h : AssignedFree l)
    (hlen : l.length ≤ 65535) : FreshImages l := by
  intro k e hk ht n hid j e2 hj hj2 hcon
  have hklt : k < l.length := by
    rcases Nat.lt_or_ge k l.length with h1 | h1
    · exact h1
    · rw [List.getElem?_eq_none h1] at hk
      simp at hk
  have hshort : (l.take k).length < 65535 := by
    rw [List.length_take]
    omega
  have hf := h k e hk ht n hid (exists_free_id (l.take k) hshort)
  have hex : Section.ResourceIDExists ⟨l.take k⟩ n = true := by
    rw [resourceIDExists_iff]
    refine ⟨e2, ?_, hcon⟩
    rw [List.mem_iff_getElem?]
    refine ⟨j, ?_⟩
    rw [List.getElem?_take_of_lt hj]
    exact hj2
  rw [hf] at hex
  cases hex

/-- The id `findPossibleID` returns from 1 is free when some id between 1 and
65535 is free. -/
theorem findPossibleID_free (E : Int → Bool)
    (h : ∃ m : Int, 1 ≤ m ∧ m ≤ 65535 ∧ E m = false) :
    1 ≤ findPossibleID E 1 ∧ findPossibleID E 1 ≤ 65535 ∧
      E (findPossibleID E 1) = false := by
  have h1 := findPossibleID_first_free E _ 1 rfl h
  exact ⟨h1.1, h1.2.1, h1.2.2.1⟩

theorem addImages_assignedFree (env : Env) (imgs : List Image) (r : Section) (i : Nat)
    (h : AssignedFree r.resources) :
    AssignedFree (addImages env r i imgs).1.resources := by
  induction imgs generalizing r i with
  | nil => exact h
  | cons img rest ih =>
    simp only [addImages, Section.AddResourceByID]
    cases hacc : env.addResourceError r .IconResource
        (.id (findPossibleID r.ResourceIDExists 1)) with
    | some msg => exact h
    | none =>
      apply ih
      apply assignedFree_append _ _ h
      intro _ n hid hfree
      simp only [Identifier.id.injEq] at hid
      subst hid
      exact (findPossibleID_free _ hfree).2.2

theorem addByIdentifier_assignedFree (env : Env) (r : Section) (typ : ResourceType)
    (spec : FileResource) (b : Blob) (ht : typ ≠ .IconResource)
    (h : AssignedFree r.resources) :
    AssignedFree (addByIdentifier env r typ spec b).1.resources := by
  rcases addByIdentifier_shape env r typ spec b with ⟨cause, h1⟩ | h1
  · rw [h1]
    exact h
  · rw [h1]
    exact assignedFree_append _ _ h (fun h2 => absurd h2 ht)

theorem registerIcon_assignedFree (env : Env) (r : Section) (icon : FileResource)
    (icons : Group) (h : AssignedFree r.resources) :
    AssignedFree (registerIcon env r icon icons).1.resources := by
  have h1 := addImages_assignedFree env icons.Images r 0 h
  unfold registerIcon
  generalize addImages env r 0 icons.Images = g at h1 ⊢
  obtain ⟨r1, imgs, res⟩ := g
  cases res with
  | error e => exact h1
  | ok u =>
    dsimp only at h1 ⊢
    have h2 := addByIdentifier_assignedFree env r1 .IconGroupResource icon
      (.group ⟨imgs, icons.descriptor⟩) (by decide) h1
    generalize addByIdentifier env r1 .IconGroupResource icon
      (.group ⟨imgs, icons.descriptor⟩) = g2 at h2 ⊢
    obtain ⟨r2, res2⟩ := g2
    cases res2 <;> exact h2

theorem assignedFreeFile_append_new (c : File) (h : AssignedFreeFile c) :
    AssignedFreeFile ⟨c.sections ++ [.rsrc New]⟩ := by
  intro k s hk
  rcases Nat.lt_or_ge k c.sections.length with hlt | hge
  · have h1 : (c.sections ++ [CoffSection.rsrc New])[k]? = c.sections[k]? :=
      List.getElem?_append_left hlt
    rw [h1] at hk
    exact h k s hk
  · have h1 : (c.sections ++ [CoffSection.rsrc New])[k]? =
        [CoffSection.rsrc New][k - c.sections.length]? := List.getElem?_append_right hge
    rw [h1] at hk
    cases hm : k - c.sections.length with
    | zero =>
      rw [hm] at hk
      simp only [List.getElem?_cons_zero, Option.some.injEq, CoffSection.rsrc.injEq] at hk
      subst hk
      exact assignedFree_nil
    | succ m =>
      rw [hm] at hk
      simp at hk

theorem assignedFreeFile_setRsrc (c : File) (r : Nat) (s : Section)
    (h : AssignedFreeFile c) (hs : AssignedFree s.resources) :
    AssignedFreeFile (c.setRsrc r s) := by
  intro k s2 hk
  have hlt : k < c.sections.length := by
    by_contra hge
    simp only [File.setRsrc] at hk
    rw [List.getElem?_eq_none (by rw [List.length_set]; omega)] at hk
    cases hk
  by_cases hkr : r = k
  · subst hkr
    simp [File.setRsrc, hlt] at hk
    subst hk
    exact hs
  · simp only [File.setRsrc, List.getElem?_set_ne hkr] at hk
    exact h k s2 hk

theorem assignedFree_of_rsrcAt (c : File) (r : Nat) (s : Section)
    (h : AssignedFreeFile c) (hr : c.rsrcAt r = some s) : AssignedFree s.resources := by
  apply h r s
  unfold File.rsrcAt at hr
  cases hs : c.sections[r]? with
  | none => rw [hs] at hr; cases hr
  | some sec =>
    rw [hs] at hr
    cases sec with
    | rsrc s0 =>
      simp only [Option.some.injEq] at hr
      rw [hr]
    | other name d => cases hr

/-- After `EmbedIcon`, whatever its outcome, the images of every container
were given ids that were free, if that was so before. -/
theorem embedIcon_assignedFree (env : Env) (c : File) (icon : Option FileResource)
    (hc : AssignedFreeFile c) : AssignedFreeFile (EmbedIcon env c icon).1 := by
  obtain ⟨c1, hc1, h⟩ := embedIcon_shape env c icon
  have h01 : AssignedFreeFile c1 := by
    rcases hc1 with rfl | rfl
    · exact hc
    · exact assignedFreeFile_append_new _ hc
  rcases h with h | ⟨r, s, spec, icons, hr, h⟩
  · rw [h]
    exact h01
  · rw [h]
    exact assignedFreeFile_setRsrc c1 r _ h01
      (registerIcon_assignedFree env s spec icons (assignedFree_of_rsrcAt c1 r s h01 hr))

theorem embedManifest_assignedFree (env : Env) (c : File) (m : Option FileResource)
    (hc : AssignedFreeFile c) : AssignedFreeFile (EmbedManifest env c m).1 := by
  obtain ⟨c1, hc1, h⟩ := embedManifest_shape env c m
  have h01 : AssignedFreeFile c1 := by
    rcases hc1 with rfl | rfl
    · exact hc
    · exact assignedFreeFile_append_new _ hc
  rcases h with h | ⟨r, s, spec, b, hr, h⟩
  · rw [h]
    exact h01
  · rw [h]
    exact assignedFreeFile_setRsrc c1 r _ h01
      (addByIdentifier_assignedFree env s .ManifestResource spec b (by decide)
        (assignedFree_of_rsrcAt c1 r s h01 hr))

theorem embedIcons_assignedFree (env : Env) (icons : List (Option FileResource))
    (c : File) (i : Nat) (hc : AssignedFreeFile c) :
    AssignedFreeFile (embedIcons env c i icons).1 := by
  induction icons generalizing c i with
  | nil => exact hc
  | cons icon rest ih =>
    have h1 := embedIcon_assignedFree env c icon hc
    simp only [embedIcons]
    generalize EmbedIcon env c icon = g at h1
    obtain ⟨c1, res⟩ := g
    cases res with
    | ok u => exact ih c1 (i + 1) h1
    | error e => exact h1
    | panic => exact h1

theorem embedManifest_step_assignedFree (env : Env) (c : File)
    (m : Option FileResource) (hc : AssignedFreeFile c) :
    AssignedFreeFile (embedManifest env c m).1 := by
  cases m with
  | none => exact hc
  | some spec =>
    have h1 := embedManifest_assignedFree env c (some spec) hc
    simp only [embedManifest]
    generalize EmbedManifest env c (some spec) = g at h1
    obtain ⟨c1, res⟩ := g
    cases res <;> exact h1

theorem assignedFreeFile_fresh (c : File) (h : AssignedFreeFile c) : FreshFile c :=
  fun k s hk hlen => assignedFree_fresh s.resources (h k s hk) hlen

theorem embedVersionInfos_assignedFree {V : Type}
    (embedVI : File → Option V → File × Result String Unit)
    (hVI : ∀ (c : File) (v : Option V), AssignedFreeFile c → AssignedFreeFile (embedVI c v).1)
    (vs : List (Option V)) (c : File) (i : Nat) (hc : AssignedFreeFile c) :
    AssignedFreeFile (embedVersionInfos embedVI c i vs).1 := by
  induction vs generalizing c i with
  | nil => exact hc
  | cons v rest ih =>
    have h1 := hVI c v hc
    simp only [embedVersionInfos]
    generalize embedVI c v = g at h1
    obtain ⟨c1, res⟩ := g
    cases res with
    | ok u => exact ih c1 (i + 1) h1
    | error e => exact h1
    | panic => exact h1

theorem mainEmbed_assignedFree {V : Type} (env : Env)
    (embedVI : File → Option V → File × Result String Unit)
    (hVI : ∀ (c : File) (v : Option V), AssignedFreeFile c → AssignedFreeFile (embedVI c v).1)
    (c : File) (cfg : Config V) (hc : AssignedFreeFile c) :
    AssignedFreeFile (mainEmbed env embedVI c cfg).1 := by
  have h0 := embedIcons_assignedFree env cfg.Icons c 0 hc
  simp only [mainEmbed]
  generalize embedIcons env c 0 cfg.Icons = g at h0
  obtain ⟨c1, res⟩ := g
  cases res with
  | error e => exact h0
  | panic => exact h0
  | ok u =>
    dsimp only at h0 ⊢
    have h1 := embedManifest_step_assignedFree env c1 cfg.Manifest h0
    generalize embedManifest env c1 cfg.Manifest = g2 at h1
    obtain ⟨c2, res2⟩ := g2
    cases res2 with
    | error e => exact h1
    | panic => exact h1
    | ok u2 => exact embedVersionInfos_assignedFree embedVI hVI cfg.VersionInfos c2 0 h1

theorem assignedFreeFile_empty : AssignedFreeFile ⟨[]⟩ := by
  intro k s hk
  simp at hk

/-- C18: the id `EmbedIcon` gives to an image is the one `findPossibleID` finds
from 1 in the container as it is at that moment, and when some id between 1
and 65535 is free, no entry of the container, of whatever resource type, has
that id.  `EmbedIcon` and `EmbedManifest` keep, whatever their outcome, the
property that every image was given an id that was free.  So after the run
over icons and manifest from an empty object file, in a container with at
most 65535 entries every image has an id that no earlier entry has: the ids of
the images are pairwise distinct and differ from the numeric ids registered
before them.  The same holds after the whole run of `main` when the
version-info embedder, which is outside the embedded files, keeps the
property. -/
theorem image_ids_fresh {V : Type} (env : Env) :
    (∀ (r : Section) (i : Nat) (img : Image) (rest : List Image),
      (addImages env r i (img :: rest)).2.1.head? =
        some ⟨findPossibleID r.ResourceIDExists 1, img.data⟩ ∧
      ((∃ m : Int, 1 ≤ m ∧ m ≤ 65535 ∧ r.ResourceIDExists m = false) →
        r.ResourceIDExists (findPossibleID r.ResourceIDExists 1) = false)) ∧
    (∀ (c : File) (icon : Option FileResource),
      AssignedFreeFile c → AssignedFreeFile (EmbedIcon env c icon).1) ∧
    (∀ (c : File) (m : Option FileResource),
      AssignedFreeFile c → AssignedFreeFile (EmbedManifest env c m).1) ∧
    (∀ (icons : List (Option FileResource)) (m : Option FileResource),
      AssignedFreeFile (embedManifest env (embedIcons env ⟨[]⟩ 0 icons).1 m).1 ∧
      FreshFile (embedManifest env (embedIcons env ⟨[]⟩ 0 icons).1 m).1) ∧
    (∀ (embedVI : File → Option V → File × Result String Unit),
      (∀ (c : File) (v : Option V), AssignedFreeFile c → AssignedFreeFile (embedVI c v).1) →
      ∀ cfg : Config V, FreshFile (mainEmbed env embedVI ⟨[]⟩ cfg).1) := by
  refine ⟨?_, embedIcon_assignedFree env, embedManifest_assignedFree env, ?_, ?_⟩
  · intro r i img rest
    refine ⟨?_, fun h => (findPossibleID_free _ h).2.2⟩
    simp only [addImages, Section.AddResourceByID]
    cases hacc : env.addResourceError r .IconResource
        (.id (findPossibleID r.ResourceIDExists 1)) with
    | some msg => rfl
    | none => rfl
  · intro icons m
    have h := embedManifest_step_assignedFree env _ m
      (embedIcons_assignedFree env icons ⟨[]⟩ 0 assignedFreeFile_empty)
    exact ⟨h, assignedFreeFile_fresh _ h⟩
  · intro embedVI hVI cfg
    exact assignedFreeFile_fresh _
      (mainEmbed_assignedFree env embedVI hVI ⟨[]⟩ cfg assignedFreeFile_empty)

/-- C18, at a concrete input: in a container that holds the ids 1 and 3 the id
2 is free, and the id given to the next image is free. -/
theorem image_ids_fresh_witness :
    (∃ m : Int, 1 ≤ m ∧ m ≤ 65535 ∧
      Section.ResourceIDExists ⟨[⟨.IconResource, .id 1, .raw []⟩,
        ⟨.ManifestResource, .id 3, .raw []⟩]⟩ m = false) ∧
    Section.ResourceIDExists ⟨[⟨.IconResource, .id 1, .raw []⟩,
        ⟨.ManifestResource, .id 3, .raw []⟩]⟩
      (findPossibleID (Section.ResourceIDExists ⟨[⟨.IconResource, .id 1, .raw []⟩,
        ⟨.ManifestResource, .id 3, .raw []⟩]⟩) 1) = false :=
  ⟨⟨2, by decide, by decide, by simp [Section.ResourceIDExists]⟩,
    ((@image_ids_fresh Unit (acceptAll [])).1
      ⟨[⟨.IconResource, .id 1, .raw []⟩, ⟨.ManifestResource, .id 3, .raw []⟩]⟩ 0
      ⟨0, [10]⟩ []).2 ⟨2, by decide, by decide, by simp [Section.ResourceIDExists]⟩⟩

end Syso
